import Mathlib

/-!
# UNIF loader (`Core/UnifLoader.h`)

A shallow embedding of the UNIF cartridge-image loader and a verification of
its specification.

Conventions of the embedding.

* A byte (`uint8_t`, `char`) is a `Nat`; a byte buffer and a `std::string` are
  `List Nat`.  A pointer into the ROM file is the `Nat` offset from
  `romFile.data()`.
* The loader object is the record `Loader` of its three data members; every
  member function takes the members it touches and returns their new values.
* What the header only includes (`RomData.h`, `UnifBoards.h`, the board table,
  `CRC32`, `md5`, `GameDatabase`, `EmulationSettings`) is gathered in `Env`.
  `MessageManager` only logs and is left out.
-/

namespace UnifLoader

/-! ## Types declared outside the header -/

/-- Modelled from the spec: `MirroringType` of `RomData.h` (not in the source
tree), the five values named by the `switch` statements of `UnifLoader.h`. -/
inductive MirroringType where
  | Horizontal
  | Vertical
  | ScreenAOnly
  | ScreenBOnly
  | FourScreens
  deriving DecidableEq, Repr

/-- Modelled from the spec: `GameSystem` of `RomData.h` (not in the source
tree).  The loader assigns `NesPal` and `NesNtsc`; `Unknown` is the
"unspecified" default of section 3. -/
inductive GameSystem where
  | NesNtsc
  | NesPal
  | Unknown
  deriving DecidableEq, Repr

/-- Modelled from the spec: `RomFormat` of `RomData.h` (not in the source
tree).  The loader assigns `Unif`. -/
inductive RomFormat where
  | Unknown
  | Unif
  deriving DecidableEq, Repr

/-- Modelled from the spec: `RomData` of `RomData.h` (not in the source tree),
restricted to the fields `UnifLoader.h` reads or writes.  The defaults are the
ones of section 3 of the specification (empty images, horizontal mirroring, no
battery, unspecified system, no error); the checksums and the mapper
identifier start at zero. -/
structure RomData where
  PrgRom : List Nat := []
  ChrRom : List Nat := []
  MapperID : Int := 0
  System : GameSystem := GameSystem.Unknown
  HasBattery : Bool := false
  Mirroring : MirroringType := MirroringType.Horizontal
  Format : RomFormat := RomFormat.Unknown
  PrgCrc32 : Nat := 0
  PrgChrCrc32 : Nat := 0
  PrgChrMd5 : List Nat := []
  Error : Bool := false
  deriving DecidableEq, Repr

/-- The collaborators of the loader that live outside `UnifLoader.h`. -/
structure Env where
  /-- The static board table `_boardMappings` (defined in another translation
  unit), as the list of its (key, value) entries. -/
  _boardMappings : List (List Nat × Int)
  /-- The enumerator `UnifBoards::UnknownBoard`. -/
  UnknownBoard : Int
  /-- The checksum `CRC32::GetCRC`. -/
  GetCRC : List Nat → Nat
  /-- The digest `GetMd5Sum`. -/
  GetMd5Sum : List Nat → List Nat
  /-- The call `GameDatabase::SetGameInfo(crc, romData, enabled)`, which
  receives the descriptor by reference: the descriptor it leaves. -/
  SetGameInfo : Nat → RomData → Bool → RomData
  /-- The flag `EmulationSettings::CheckFlag(EmulationFlags::DisableGameDatabase)`. -/
  DisableGameDatabase : Bool
  /-- The byte a read at `romFile.data() + romFile.size()` observes.  Such a
  read is outside the vector; the model lets it return an arbitrary byte. -/
  pastEnd : Nat

/-- The data members of a `UnifLoader` object.  `_prgChunks` and `_chrChunks`
are arrays of 16 vectors: the function gives the vector at each index. -/
structure Loader where
  _prgChunks : Nat → List Nat
  _chrChunks : Nat → List Nat
  _mapperName : List Nat

/-- A newly constructed `UnifLoader`: empty vectors, empty string. -/
def Loader.fresh : Loader :=
  { _prgChunks := fun _ => [], _chrChunks := fun _ => [], _mapperName := [] }

/-! ## String constants -/

/-- The bytes of a string literal. -/
def str (s : String) : List Nat := s.toList.map Char.toNat

def MAPR : List Nat := [77, 65, 80, 82]
def PRG : List Nat := [80, 82, 71]
def CHR : List Nat := [67, 72, 82]
def TVCI : List Nat := [84, 86, 67, 73]
def CTRL : List Nat := [67, 84, 82, 76]
def BATR : List Nat := [66, 65, 84, 82]
def MIRR : List Nat := [77, 73, 82, 82]
def NES_ : List Nat := [78, 69, 83, 45]
def UNL_ : List Nat := [85, 78, 76, 45]
def HVC_ : List Nat := [72, 86, 67, 45]
def BTL_ : List Nat := [66, 84, 76, 45]
def BMC_ : List Nat := [66, 77, 67, 45]

/-! ## Cursor primitives -/

/-- The byte `data[0]` for the cursor at offset `i`. -/
def byteAt (env : Env) (buf : List Nat) (i : Nat) : Nat :=
  buf.getD i env.pastEnd

/-- `void Read(uint8_t* &data, uint8_t& dest)`: the byte and the new cursor. -/
def Read_u8 (env : Env) (buf : List Nat) (data : Nat) : Nat × Nat :=
  (byteAt env buf data, data + 1)

/-- `void Read(uint8_t* &data, uint32_t& dest)`: the value and the new cursor. -/
def Read_u32 (env : Env) (buf : List Nat) (data : Nat) : Nat × Nat :=
  ((byteAt env buf data ||| (byteAt env buf (data + 1) <<< 8)
      ||| (byteAt env buf (data + 2) <<< 16)
      ||| (byteAt env buf (data + 3) <<< 24)) % 2 ^ 32,
   data + 4)

/-- `void Read(uint8_t* &data, uint8_t* dest, size_t len)`: the bytes copied to
`dest` and the new cursor. -/
def Read_bytes (buf : List Nat) (data : Nat) (len : Nat) : List Nat × Nat :=
  ((buf.drop data).take len, data + len)

/-- The `while` loop of `ReadString`; `fuel` counts the bytes left before
`chunkEnd`. -/
def ReadStringLoop (env : Env) (buf : List Nat) (chunkEnd : Nat) :
    Nat → Nat → List Nat → List Nat × Nat
  | 0, data, ss => (ss, data)
  | fuel + 1, data, ss =>
    if data < chunkEnd then
      if byteAt env buf data = 0 then (ss, chunkEnd)
      else ReadStringLoop env buf chunkEnd fuel (data + 1) (ss ++ [byteAt env buf data])
    else (ss, data)

/-- `string ReadString(uint8_t* &data, uint8_t* chunkEnd)`: the string and the
new cursor. -/
def ReadString (env : Env) (buf : List Nat) (data chunkEnd : Nat) : List Nat × Nat :=
  ReadStringLoop env buf chunkEnd (chunkEnd - data) data []

/-- `string ReadFourCC(uint8_t* &data)`: the four characters and the new cursor. -/
def ReadFourCC (env : Env) (buf : List Nat) (data : Nat) : List Nat × Nat :=
  ([byteAt env buf data, byteAt env buf (data + 1), byteAt env buf (data + 2),
    byteAt env buf (data + 3)], data + 4)

/-- The bank number of a `PRGn`/`CHRn` tag: `ss << std::hex << fourCC[3];
ss >> chunkNumber;`.  A hexadecimal digit gives its value; for any other
character the extraction fails and stores 0 (C++11 `num_get`). -/
def chunkNumber (c : Nat) : Nat :=
  if 48 ≤ c ∧ c ≤ 57 then c - 48
  else if 97 ≤ c ∧ c ≤ 102 then c - 87
  else if 65 ≤ c ∧ c ≤ 70 then c - 55
  else 0

/-- The `switch` of the `MIRR` handler. -/
def mirroringOf (value : Nat) : MirroringType :=
  match value with
  | 1 => MirroringType.Vertical
  | 2 => MirroringType.ScreenAOnly
  | 3 => MirroringType.ScreenBOnly
  | 4 => MirroringType.FourScreens
  | _ => MirroringType.Horizontal

/-! ## Board-name resolution -/

/-- `static int32_t GetMapperID(string mapperName)`. -/
def GetMapperID (env : Env) (mapperName : List Nat) : Int :=
  let pfx := mapperName.take 4
  let mapperName :=
    if pfx = NES_ ∨ pfx = UNL_ ∨ pfx = HVC_ ∨ pfx = BTL_ ∨ pfx = BMC_ then mapperName.drop 4
    else mapperName
  match env._boardMappings.lookup mapperName with
  | some result => result
  | none => env.UnknownBoard

/-! ## Chunk dispatch -/

/-- `bool ReadChunk(uint8_t* &data, uint8_t* dataEnd, RomData& romData)` with
`dataEnd` the end of `buf`: the returned flag, the new cursor, the new
descriptor and the new data members. -/
def ReadChunk (env : Env) (buf : List Nat) (data : Nat) (romData : RomData) (ld : Loader) :
    Bool × Nat × RomData × Loader :=
  if data + 8 > buf.length then (false, data, romData, ld)
  else
    let fourCC := (ReadFourCC env buf data).1
    let data := (ReadFourCC env buf data).2
    let length := (Read_u32 env buf data).1
    let data := (Read_u32 env buf data).2
    let chunkEnd := data + length
    if chunkEnd > buf.length then (false, data, romData, ld)
    else if fourCC = MAPR then
      let name := (ReadString env buf data chunkEnd).1
      let data := (ReadString env buf data chunkEnd).2
      if name.length > 0 then
        (true, chunkEnd, { romData with MapperID := GetMapperID env name },
          { ld with _mapperName := name })
      else
        (false, data, { romData with Error := true }, { ld with _mapperName := name })
    else if fourCC.take 3 = PRG then
      (true, chunkEnd, romData,
        { ld with _prgChunks := Function.update ld._prgChunks (chunkNumber (fourCC.getD 3 0))
                                (Read_bytes buf data length).1 })
    else if fourCC.take 3 = CHR then
      (true, chunkEnd, romData,
        { ld with _chrChunks := Function.update ld._chrChunks (chunkNumber (fourCC.getD 3 0))
                                (Read_bytes buf data length).1 })
    else if fourCC = TVCI then
      (true, chunkEnd,
        { romData with System :=
            if (Read_u8 env buf data).1 = 1 then GameSystem.NesPal else GameSystem.NesNtsc },
        ld)
    else if fourCC = CTRL then (true, chunkEnd, romData, ld)
    else if fourCC = BATR then
      (true, chunkEnd, { romData with HasBattery := decide ((Read_u8 env buf data).1 > 0) }, ld)
    else if fourCC = MIRR then
      (true, chunkEnd, { romData with Mirroring := mirroringOf (Read_u8 env buf data).1 }, ld)
    else (true, chunkEnd, romData, ld)

/-! ## The loader -/

/-- The loop `while(ReadChunk(data, endOfFile, romData)) {}`: the cursor, the
descriptor and the data members when `ReadChunk` returns `false`, or `none`
when `fuel` calls did not reach that point. -/
def parseLoop (env : Env) (buf : List Nat) :
    Nat → Nat → RomData → Loader → Option (Nat × RomData × Loader)
  | 0, _, _, _ => none
  | fuel + 1, data, romData, ld =>
    match ReadChunk env buf data romData ld with
    | (true, data1, romData1, ld1) => parseLoop env buf fuel data1 romData1 ld1
    | (false, data1, romData1, ld1) => some (data1, romData1, ld1)

/-- The `for` loop that appends the 16 vectors of `chunks` to `rom`. -/
def assemble (chunks : Nat → List Nat) (rom : List Nat) : List Nat :=
  (List.range 16).foldl (fun acc i => acc ++ chunks i) rom

/-- The part of `LoadRom` after the parse loop (lines 169 to 214). -/
def finishLoad (env : Env) (romData : RomData) (ld : Loader) : RomData :=
  let romData := { romData with
    PrgRom := assemble ld._prgChunks romData.PrgRom,
    ChrRom := assemble ld._chrChunks romData.ChrRom }
  if romData.PrgRom.length = 0 ∨ ld._mapperName = [] then
    { romData with Error := true }
  else
    let fullRom := romData.PrgRom ++ romData.ChrRom
    let romData := { romData with
      Format := RomFormat.Unif,
      PrgCrc32 := env.GetCRC romData.PrgRom,
      PrgChrCrc32 := env.GetCRC fullRom,
      PrgChrMd5 := env.GetMd5Sum fullRom }
    let romData := env.SetGameInfo romData.PrgChrCrc32 romData (!env.DisableGameDatabase)
    if romData.MapperID = env.UnknownBoard then { romData with Error := true }
    else romData

/-- The state of `LoadRom` when its parse loop ends: the loop starts at offset
32 with a default-constructed descriptor.  Each successful `ReadChunk` moves
the cursor by at least 8, so `buf.length + 1` calls are enough. -/
def parseRom (env : Env) (ld : Loader) (buf : List Nat) : Option (Nat × RomData × Loader) :=
  parseLoop env buf (buf.length + 1) 32 {} ld

/-- `RomData LoadRom(vector<uint8_t>& romFile)` on the loader `ld`: the
returned descriptor and the data members the call leaves. -/
def LoadRom (env : Env) (ld : Loader) (buf : List Nat) : Option (RomData × Loader) :=
  match parseRom env ld buf with
  | none => none
  | some (_, romData, ld1) => some (finishLoad env romData ld1, ld1)

/-! ## The file format, as the specification describes it -/

/-- A chunk of the file format: a tag and a payload. -/
structure Chunk where
  tag : List Nat
  payload : List Nat
  deriving DecidableEq, Repr

/-- The four bytes of an unsigned 32-bit length, least significant first. -/
def le32 (n : Nat) : List Nat :=
  [n % 256, n / 256 % 256, n / 65536 % 256, n / 16777216 % 256]

/-- The bytes of a chunk: tag, length, payload. -/
def Chunk.encode (c : Chunk) : List Nat :=
  c.tag ++ (le32 c.payload.length ++ c.payload)

/-- A chunk the format can hold: a tag of four characters and a payload whose
length fits the 32-bit length field. -/
def Chunk.WellFormed (c : Chunk) : Prop :=
  c.tag.length = 4 ∧ c.payload.length < 2 ^ 32

instance (c : Chunk) : Decidable c.WellFormed :=
  inferInstanceAs (Decidable (c.tag.length = 4 ∧ c.payload.length < 2 ^ 32))

/-- The bytes of a sequence of chunks, one after the other. -/
def encodeAll : List Chunk → List Nat
  | [] => []
  | c :: cs => c.encode ++ encodeAll cs

/-- The text a payload carries: its bytes before the first zero byte. -/
def Chunk.name (c : Chunk) : List Nat :=
  c.payload.takeWhile (fun b => b != 0)

/-- A `MAPR` chunk that carries no text. -/
def Chunk.isEmptyMAPR (c : Chunk) : Bool :=
  decide (c.tag = MAPR) && decide (c.name = [])

/-- A `MAPR` chunk. -/
def Chunk.isMAPR (c : Chunk) : Bool :=
  decide (c.tag = MAPR)

/-- A chunk tagged `kind` (`PRG` or `CHR`) followed by the digit of bank `i`. -/
def Chunk.isBank (kind : List Nat) (i : Nat) (c : Chunk) : Bool :=
  decide (c.tag.take 3 = kind) && decide (chunkNumber (c.tag.getD 3 0) = i)

/-- The chunks the parse loop goes through: those before the first `MAPR`
chunk with an empty name, where the loop stops. -/
def processed (cs : List Chunk) : List Chunk :=
  cs.takeWhile (fun c => !c.isEmptyMAPR)

/-- The content of bank slot `i` of `kind` once the chunks are processed: the
payload of the last processed chunk tagged for that slot, nothing if there is
none. -/
def bankPayload (kind : List Nat) (i : Nat) (cs : List Chunk) : List Nat :=
  match ((processed cs).filter (Chunk.isBank kind i)).getLast? with
  | some c => c.payload
  | none => []

/-- The 16 slots one after the other, in ascending order of index. -/
def concatSlots (slot : Nat → List Nat) : List Nat :=
  slot 0 ++ slot 1 ++ slot 2 ++ slot 3 ++ slot 4 ++ slot 5 ++ slot 6 ++ slot 7 ++
  slot 8 ++ slot 9 ++ slot 10 ++ slot 11 ++ slot 12 ++ slot 13 ++ slot 14 ++ slot 15

/-- The five organisation prefixes of a board name. -/
def orgPrefixes : List (List Nat) := [NES_, UNL_, HVC_, BTL_, BMC_]

/-- The key a board name is looked up under: the name without its first four
characters when those are one of the organisation prefixes, else the name. -/
def boardKey (name : List Nat) : List Nat :=
  if orgPrefixes.any (fun p => p.isPrefixOf name) then name.drop 4 else name

/-- The game-database step leaves the descriptor it is given unchanged. -/
def DbInert (env : Env) : Prop :=
  ∀ crc romData enabled, env.SetGameInfo crc romData enabled = romData

/-- The game-database step leaves the two memory images unchanged. -/
def DbKeepsRoms (env : Env) : Prop :=
  ∀ crc romData enabled,
    (env.SetGameInfo crc romData enabled).PrgRom = romData.PrgRom ∧
    (env.SetGameInfo crc romData enabled).ChrRom = romData.ChrRom

/-! ## The effect of a chunk that `ReadChunk` accepts -/

/-- The descriptor and data members after `ReadChunk` has accepted the chunk
`c`; `next` is the byte that follows the chunk in the buffer, which the
one-byte handlers read when the payload is empty. -/
def chunkEffect (env : Env) (c : Chunk) (next : Nat) (s : RomData × Loader) :
    RomData × Loader :=
  if c.tag = MAPR then
    ({ s.1 with MapperID := GetMapperID env c.name }, { s.2 with _mapperName := c.name })
  else if c.tag.take 3 = PRG then
    (s.1, { s.2 with _prgChunks :=
              Function.update s.2._prgChunks (chunkNumber (c.tag.getD 3 0)) c.payload })
  else if c.tag.take 3 = CHR then
    (s.1, { s.2 with _chrChunks :=
              Function.update s.2._chrChunks (chunkNumber (c.tag.getD 3 0)) c.payload })
  else if c.tag = TVCI then
    ({ s.1 with System :=
        if (c.payload ++ [next]).headD 0 = 1 then GameSystem.NesPal else GameSystem.NesNtsc },
      s.2)
  else if c.tag = CTRL then s
  else if c.tag = BATR then
    ({ s.1 with HasBattery := decide ((c.payload ++ [next]).headD 0 > 0) }, s.2)
  else if c.tag = MIRR then
    ({ s.1 with Mirroring := mirroringOf ((c.payload ++ [next]).headD 0) }, s.2)
  else s

/-- The descriptor and data members after `ReadChunk` has accepted the chunks
`cs` one after the other; `rest` is what follows them in the buffer. -/
def runChunks (env : Env) (rest : List Nat) : List Chunk → RomData × Loader → RomData × Loader
  | [], s => s
  | c :: cs, s =>
    runChunks env rest cs (chunkEffect env c ((encodeAll cs ++ rest).headD env.pastEnd) s)

/-! ## The bytes a call reads -/

/-- The offsets of the bytes the loop of `ReadString` reads (`data[0]` at each
turn), with the fuel of `ReadStringLoop`. -/
def ReadStringReads (env : Env) (buf : List Nat) (chunkEnd : Nat) : Nat → Nat → List Nat
  | 0, _ => []
  | fuel + 1, data =>
    if data < chunkEnd then
      if byteAt env buf data = 0 then [data]
      else data :: ReadStringReads env buf chunkEnd fuel (data + 1)
    else []

/-- The offsets of the bytes a call of `ReadChunk` reads for the chunk header:
the four characters of `ReadFourCC` and the four bytes of the length. -/
def headerReads (buf : List Nat) (data : Nat) : List Nat :=
  if data + 8 > buf.length then []
  else [data, data + 1, data + 2, data + 3, data + 4, data + 5, data + 6, data + 7]

/-- The offsets of the bytes the handler of a chunk reads in a call of
`ReadChunk`: the string of `MAPR`, the `length` bytes copied by `PRG` and
`CHR`, the one byte of `TVCI`, `BATR` and `MIRR`. -/
def handlerReads (env : Env) (buf : List Nat) (data : Nat) : List Nat :=
  if data + 8 > buf.length then []
  else
    let fourCC := (ReadFourCC env buf data).1
    let data := (ReadFourCC env buf data).2
    let length := (Read_u32 env buf data).1
    let data := (Read_u32 env buf data).2
    let chunkEnd := data + length
    if chunkEnd > buf.length then []
    else if fourCC = MAPR then ReadStringReads env buf chunkEnd (chunkEnd - data) data
    else if fourCC.take 3 = PRG then List.range' data length
    else if fourCC.take 3 = CHR then List.range' data length
    else if fourCC = TVCI then [data]
    else if fourCC = CTRL then []
    else if fourCC = BATR then [data]
    else if fourCC = MIRR then [data]
    else []

/-- The number of calls of `ReadChunk` that return `true` in the parse loop
run with `fuel` calls at most. -/
def successfulReads (env : Env) (buf : List Nat) : Nat → Nat → RomData → Loader → Nat
  | 0, _, _, _ => 0
  | fuel + 1, data, romData, ld =>
    match ReadChunk env buf data romData ld with
    | (true, data1, romData1, ld1) => successfulReads env buf fuel data1 romData1 ld1 + 1
    | (false, _, _, _) => 0

/-! ## Devices for reasoning about the parse loop -/

/-- What a call of `ReadChunk` writes to the data members of the loader:
nothing, one program slot, one character slot, or the board name. -/
inductive Write where
  | none
  | prg (k : Nat) (bytes : List Nat)
  | chr (k : Nat) (bytes : List Nat)
  | name (text : List Nat)

/-- The data members after a write. -/
def Write.apply : Write → Loader → Loader
  | Write.none, ld => ld
  | Write.prg k bytes, ld => { ld with _prgChunks := Function.update ld._prgChunks k bytes }
  | Write.chr k bytes, ld => { ld with _chrChunks := Function.update ld._chrChunks k bytes }
  | Write.name text, ld => { ld with _mapperName := text }

/-- What holds of the descriptor and the board name all along the parse loop
of a fresh loader: the images and checksums are still the default ones, and a
non-empty board name is the one the mapper identifier was resolved from. -/
def LoopInv (env : Env) (rd : RomData) (ld : Loader) : Prop :=
  rd.PrgRom = [] ∧ rd.ChrRom = [] ∧ rd.PrgCrc32 = 0 ∧ rd.PrgChrCrc32 = 0 ∧ rd.PrgChrMd5 = [] ∧
  (ld._mapperName ≠ [] → rd.MapperID = GetMapperID env ld._mapperName)

/-! ## What the parse loop writes -/

/-- The bytes a write assigns. -/
def Write.bytes : Write → List Nat
  | Write.none => []
  | Write.prg _ bytes => bytes
  | Write.chr _ bytes => bytes
  | Write.name text => text

/-- A header region: 32 bytes, which the loader skips. -/
def exHeader : List Nat := List.replicate 32 0

/-- A board table with the single entry `NROM`, and collaborators that can be
evaluated: a sum for the checksum, the bytes themselves for the digest, and a
game database that changes nothing. -/
def exEnv : Env :=
  { _boardMappings := [(str "NROM", 0)],
    UnknownBoard := 65535,
    GetCRC := fun bytes => bytes.sum,
    GetMd5Sum := fun bytes => bytes,
    SetGameInfo := fun _ romData _ => romData,
    DisableGameDatabase := false,
    pastEnd := 0 }

/-- A file with a known board and two bytes of program memory. -/
def exGoodFile : List Chunk :=
  [⟨MAPR, str "NROM" ++ [0]⟩, ⟨str "PRG0", [0xAA, 0xBB]⟩]

/-- The scenario of the specification: board `TEST`, two bytes in `PRG0`. -/
def exUnknownBoardFile : List Chunk :=
  [⟨MAPR, str "TEST" ++ [0]⟩, ⟨str "PRG0", [0xAA, 0xBB]⟩]

/-- A file whose only program chunk has no payload. -/
def exEmptyPrgFile : List Chunk :=
  [⟨MAPR, str "NROM" ++ [0]⟩, ⟨str "PRG0", []⟩]

/-- A file with a named board, program memory, and then a `MAPR` chunk without text. -/
def exLateEmptyNameFile : List Chunk :=
  [⟨MAPR, str "NROM" ++ [0]⟩, ⟨str "PRG0", [0xAA, 0xBB]⟩, ⟨MAPR, []⟩]

/-- Program banks out of order: `PRG1` before `PRG0`. -/
def exSwappedBanksFile : List Chunk :=
  [⟨str "PRG1", [0x11, 0x12]⟩, ⟨str "PRG0", [0x01, 0x02, 0x03]⟩]

/-- Program banks with a gap: `PRG0` and `PRG3` only. -/
def exSparseBanksFile : List Chunk :=
  [⟨str "PRG0", [0x01, 0x02, 0x03]⟩, ⟨str "PRG3", [0x31, 0x32]⟩]

/-- A file cut short by a `MAPR` chunk whose payload is a single zero byte,
followed by a program chunk the loop never reaches. -/
def exEmptyNameFile : List Nat :=
  exHeader ++ encodeAll [⟨str "PRG0", [0xAA, 0xBB]⟩] ++ Chunk.encode ⟨MAPR, [0]⟩
    ++ encodeAll [⟨str "PRG1", [0xCC]⟩]

/-- A board table whose only key itself starts with an organisation prefix:
`NES-X`. -/
def exPrefixedKeyEnv : Env :=
  { exEnv with _boardMappings := [(str "NES-X", 5)] }

/-- A playable file that ends with a `MIRR` chunk of declared length 0. -/
def exEmptyMirrFile : List Chunk :=
  [⟨MAPR, str "NROM" ++ [0]⟩, ⟨str "PRG0", [0xAA, 0xBB]⟩, ⟨MIRR, []⟩]

/-- A chunk with an unrecognised tag whose first byte is 1, and no payload. -/
def exOddChunk : Chunk := ⟨[1, 65, 66, 67], []⟩

/-- An empty `NAME` chunk, one of the tags the loader skips. -/
def exNameChunk : Chunk := ⟨str "NAME", []⟩

/-- A program chunk whose tag ends in the letter Z, not a hexadecimal digit. -/
def exBadDigitChunk : Chunk := ⟨str "PRGZ", [0xEE, 0xFF]⟩

/-- A `MIRR` chunk of declared length 10 whose first byte asks for vertical
mirroring. -/
def exLongMirrChunk : Chunk := ⟨MIRR, [1, 2, 3, 4, 5, 6, 7, 8, 9, 10]⟩

theorem byteAt_append_right (env : Env) (pre l : List Nat) (i : Nat) :
    byteAt env (pre ++ l) (pre.length + i) = byteAt env l i := by
  unfold byteAt
  rw [List.getD_append_right _ _ _ _ (by omega)]
  simp

theorem byteAt_append_right_zero (env : Env) (pre l : List Nat) :
    byteAt env (pre ++ l) pre.length = byteAt env l 0 := by
  simpa using byteAt_append_right env pre l 0

theorem or_shift_eq_add (a b k : Nat) (h : a < 2 ^ k) : a ||| (b <<< k) = a + b * 2 ^ k := by
  rw [Nat.shiftLeft_eq, Nat.lor_comm, Nat.mul_comm b, Nat.add_comm]
  exact (Nat.mul_add_lt_is_or h b).symm

theorem lor4_eq (b0 b1 b2 b3 : Nat) (h0 : b0 < 256) (h1 : b1 < 256) (h2 : b2 < 256)
    (h3 : b3 < 256) :
    (b0 ||| (b1 <<< 8) ||| (b2 <<< 16) ||| (b3 <<< 24)) % 2 ^ 32
      = b0 + 256 * b1 + 65536 * b2 + 16777216 * b3 := by
  rw [or_shift_eq_add b0 b1 8 (by omega)]
  rw [or_shift_eq_add (b0 + b1 * 2 ^ 8) b2 16 (by omega)]
  rw [or_shift_eq_add (b0 + b1 * 2 ^ 8 + b2 * 2 ^ 16) b3 24 (by omega)]
  omega

theorem le32_decode (n : Nat) (h : n < 2 ^ 32) :
    (n % 256 ||| ((n / 256 % 256) <<< 8) ||| ((n / 65536 % 256) <<< 16)
      ||| ((n / 16777216 % 256) <<< 24)) % 2 ^ 32 = n := by
  rw [lor4_eq _ _ _ _ (by omega) (by omega) (by omega) (by omega)]
  omega

theorem length_le32 (n : Nat) : (le32 n).length = 4 := rfl

theorem length_encode (c : Chunk) : c.encode.length = c.tag.length + 4 + c.payload.length := by
  simp [Chunk.encode, length_le32]; omega

theorem ReadFourCC_at (env : Env) (pre tag r : List Nat) (h : tag.length = 4) :
    ReadFourCC env (pre ++ (tag ++ r)) pre.length = (tag, pre.length + 4) := by
  rcases tag with _ | ⟨a, _ | ⟨b, _ | ⟨c, _ | ⟨d, _ | ⟨e, t⟩⟩⟩⟩⟩ <;> simp at h
  simp only [ReadFourCC, byteAt_append_right, byteAt_append_right_zero]
  simp [byteAt]

theorem Read_u32_at (env : Env) (pre r : List Nat) (n : Nat) (h : n < 2 ^ 32) :
    Read_u32 env (pre ++ (le32 n ++ r)) pre.length = (n, pre.length + 4) := by
  simp only [Read_u32, byteAt_append_right, byteAt_append_right_zero]
  simp only [byteAt, le32, List.cons_append, List.getD_cons_zero, List.getD_cons_succ]
  rw [le32_decode n h]

theorem ReadStringLoop_at (env : Env) (pre rest : List Nat) :
    ∀ (p2 p1 ss : List Nat),
      ReadStringLoop env (pre ++ ((p1 ++ p2) ++ rest)) (pre.length + (p1.length + p2.length))
          p2.length (pre.length + p1.length) ss
        = (ss ++ p2.takeWhile (fun b => b != 0), pre.length + (p1.length + p2.length)) := by
  intro p2
  induction p2 with
  | nil => intro p1 ss; simp [ReadStringLoop]
  | cons b p2 ih =>
    intro p1 ss
    have hb : byteAt env (pre ++ ((p1 ++ b :: p2) ++ rest)) (pre.length + p1.length) = b := by
      rw [byteAt_append_right, List.append_assoc]
      have := byteAt_append_right env p1 ((b :: p2) ++ rest) 0
      simp only [Nat.add_zero] at this
      rw [this]; simp [byteAt]
    simp only [ReadStringLoop, List.length_cons, hb]
    rw [if_pos (by omega)]
    by_cases h0 : b = 0
    · simp [h0]
    · rw [if_neg h0]
      have e1 : p1 ++ b :: p2 = (p1 ++ [b]) ++ p2 := by simp
      have := ih (p1 ++ [b]) (ss ++ [b])
      simp only [List.length_append, List.length_singleton] at this
      rw [e1]
      have e2 : pre.length + (p1.length + (p2.length + 1)) = pre.length + (p1.length + 1 + p2.length) := by
        omega
      have e3 : pre.length + p1.length + 1 = pre.length + (p1.length + 1) := by omega
      rw [e2, e3, this]
      simp [List.takeWhile_cons, h0]

theorem ReadString_at (env : Env) (pre payload rest : List Nat) :
    ReadString env (pre ++ (payload ++ rest)) pre.length (pre.length + payload.length)
      = (payload.takeWhile (fun b => b != 0), pre.length + payload.length) := by
  have := ReadStringLoop_at env pre rest payload [] []
  simpa [ReadString] using this

theorem Read_bytes_at (pre payload rest : List Nat) :
    Read_bytes (pre ++ (payload ++ rest)) pre.length payload.length
      = (payload, pre.length + payload.length) := by
  simp [Read_bytes]

theorem Read_u8_at (env : Env) (pre payload rest : List Nat) :
    (Read_u8 env (pre ++ (payload ++ rest)) pre.length).1
      = (payload ++ [rest.headD env.pastEnd]).headD 0 := by
  simp only [Read_u8, byteAt_append_right_zero]
  cases payload <;> cases rest <;> simp [byteAt]

theorem ReadChunk_encode (env : Env) (pre rest : List Nat) (c : Chunk) (rd : RomData)
    (ld : Loader) (hc : c.WellFormed) :
    ReadChunk env (pre ++ (c.encode ++ rest)) pre.length rd ld =
      if c.isEmptyMAPR then
        (false, pre.length + c.encode.length, { rd with Error := true },
          { ld with _mapperName := [] })
      else
        (true, pre.length + c.encode.length,
          (chunkEffect env c (rest.headD env.pastEnd) (rd, ld)).1,
          (chunkEffect env c (rest.headD env.pastEnd) (rd, ld)).2) := by
  obtain ⟨htag, hlen⟩ := hc
  have hE : c.encode.length = 8 + c.payload.length := by rw [length_encode, htag]
  have hL : (pre ++ (c.encode ++ rest)).length
      = pre.length + 4 + 4 + c.payload.length + rest.length := by
    simp only [List.length_append, hE]; omega
  have e1 : pre ++ (c.encode ++ rest)
      = pre ++ (c.tag ++ (le32 c.payload.length ++ c.payload ++ rest)) := by
    simp [Chunk.encode]
  have e2 : pre ++ (c.encode ++ rest)
      = (pre ++ c.tag) ++ (le32 c.payload.length ++ (c.payload ++ rest)) := by
    simp [Chunk.encode]
  have e3 : pre ++ (c.encode ++ rest)
      = (pre ++ c.tag ++ le32 c.payload.length) ++ (c.payload ++ rest) := by
    simp [Chunk.encode]
  have l2 : (pre ++ c.tag).length = pre.length + 4 := by simp [htag]
  have l3 : (pre ++ c.tag ++ le32 c.payload.length).length = pre.length + 4 + 4 := by
    simp [htag, length_le32]
  have h1 : ReadFourCC env (pre ++ (c.encode ++ rest)) pre.length = (c.tag, pre.length + 4) := by
    rw [e1]; exact ReadFourCC_at env pre c.tag _ htag
  have h2 : Read_u32 env (pre ++ (c.encode ++ rest)) (pre.length + 4)
      = (c.payload.length, pre.length + 4 + 4) := by
    rw [e2, ← l2]; exact Read_u32_at env _ _ _ hlen
  have h3 : ReadString env (pre ++ (c.encode ++ rest)) (pre.length + 4 + 4)
      (pre.length + 4 + 4 + c.payload.length) = (c.name, pre.length + 4 + 4 + c.payload.length) := by
    rw [e3, ← l3]; exact ReadString_at env _ _ _
  have h4 : Read_bytes (pre ++ (c.encode ++ rest)) (pre.length + 4 + 4) c.payload.length
      = (c.payload, pre.length + 4 + 4 + c.payload.length) := by
    rw [e3, ← l3]; exact Read_bytes_at _ _ _
  have h5 : (Read_u8 env (pre ++ (c.encode ++ rest)) (pre.length + 4 + 4)).1
      = (c.payload ++ [rest.headD env.pastEnd]).headD 0 := by
    rw [e3, ← l3]; exact Read_u8_at env _ _ _
  have hend : pre.length + c.encode.length = pre.length + 4 + 4 + c.payload.length := by
    rw [hE]; omega
  simp only [ReadChunk, h1, h2, h3, h4, h5, hL, hend]
  rw [if_neg (by omega), if_neg (by omega)]
  by_cases hM : c.tag = MAPR
  · by_cases hN : c.name = []
    · simp [Chunk.isEmptyMAPR, hM, hN]
    · have : c.name.length > 0 := List.length_pos.mpr hN
      simp [Chunk.isEmptyMAPR, hM, hN, chunkEffect, this]
  · have hE' : c.isEmptyMAPR = false := by simp [Chunk.isEmptyMAPR, hM]
    simp only [hE', Bool.false_eq_true, if_false, if_neg hM, chunkEffect]
    split_ifs <;> simp

/-! ## The parse loop over a sequence of chunks -/

theorem parseLoop_succ (env : Env) (buf : List Nat) (fuel data : Nat) (rd : RomData)
    (ld : Loader) :
    parseLoop env buf (fuel + 1) data rd ld =
      if (ReadChunk env buf data rd ld).1 = true then
        parseLoop env buf fuel (ReadChunk env buf data rd ld).2.1
          (ReadChunk env buf data rd ld).2.2.1 (ReadChunk env buf data rd ld).2.2.2
      else some (ReadChunk env buf data rd ld).2 := by
  rw [parseLoop]
  rcases h : ReadChunk env buf data rd ld with ⟨ok, d, r, l⟩
  cases ok <;> simp

theorem parseLoop_chunks (env : Env) (rest : List Nat) :
    ∀ (cs : List Chunk) (pre : List Nat) (fuel : Nat) (rd : RomData) (ld : Loader),
      (∀ c ∈ cs, c.WellFormed ∧ c.isEmptyMAPR = false) →
      parseLoop env (pre ++ (encodeAll cs ++ rest)) (cs.length + fuel) pre.length rd ld =
        parseLoop env (pre ++ (encodeAll cs ++ rest)) fuel (pre.length + (encodeAll cs).length)
          (runChunks env rest cs (rd, ld)).1 (runChunks env rest cs (rd, ld)).2 := by
  intro cs
  induction cs with
  | nil => intro pre fuel rd ld _; simp [encodeAll, runChunks]
  | cons c cs ih =>
    intro pre fuel rd ld h
    have hc := h c (List.mem_cons_self _ _)
    have hcs : ∀ d ∈ cs, d.WellFormed ∧ d.isEmptyMAPR = false :=
      fun d hd => h d (List.mem_cons_of_mem _ hd)
    have e1 : pre ++ (encodeAll (c :: cs) ++ rest) = pre ++ (c.encode ++ (encodeAll cs ++ rest)) := by
      simp [encodeAll]
    have e2 : pre ++ (c.encode ++ (encodeAll cs ++ rest))
        = (pre ++ c.encode) ++ (encodeAll cs ++ rest) := by simp
    have e3 : (c :: cs).length + fuel = (cs.length + fuel) + 1 := by simp; omega
    rw [e3, parseLoop_succ, e1, ReadChunk_encode env pre _ c rd ld hc.1]
    simp only [hc.2, Bool.false_eq_true, if_false, if_true]
    rw [e2, ← List.length_append, ih (pre ++ c.encode) fuel _ _ hcs]
    simp only [runChunks, encodeAll, List.length_append, Nat.add_assoc]

theorem parseLoop_mono (env : Env) (buf : List Nat) (k : Nat) :
    ∀ (fuel data : Nat) (rd : RomData) (ld : Loader) (r : Nat × RomData × Loader),
      parseLoop env buf fuel data rd ld = some r →
      parseLoop env buf (fuel + k) data rd ld = some r := by
  intro fuel
  induction fuel with
  | zero => intro data rd ld r h; simp [parseLoop] at h
  | succ fuel ih =>
    intro data rd ld r h
    have e : fuel + 1 + k = (fuel + k) + 1 := by omega
    rw [e, parseLoop_succ]
    rw [parseLoop_succ] at h
    by_cases hok : (ReadChunk env buf data rd ld).1 = true
    · rw [if_pos hok] at h ⊢
      exact ih _ _ _ _ h
    · rw [if_neg hok] at h ⊢
      exact h

theorem length_le_encodeAll (cs : List Chunk) : cs.length ≤ (encodeAll cs).length := by
  induction cs with
  | nil => simp
  | cons c cs ih => simp [encodeAll, length_encode]; omega

theorem ReadChunk_short (env : Env) (buf : List Nat) (data : Nat) (rd : RomData) (ld : Loader)
    (h : buf.length < data + 8) : ReadChunk env buf data rd ld = (false, data, rd, ld) := by
  simp [ReadChunk, h]

theorem parseRom_chunks_stop (env : Env) (ld : Loader) (hdr rest : List Nat) (cs : List Chunk)
    (hhdr : hdr.length = 32) (hcs : ∀ c ∈ cs, c.WellFormed ∧ c.isEmptyMAPR = false)
    (hstop : (ReadChunk env (hdr ++ (encodeAll cs ++ rest)) (32 + (encodeAll cs).length)
        (runChunks env rest cs ({}, ld)).1 (runChunks env rest cs ({}, ld)).2).1 = false) :
    parseRom env ld (hdr ++ (encodeAll cs ++ rest)) =
      some (ReadChunk env (hdr ++ (encodeAll cs ++ rest)) (32 + (encodeAll cs).length)
        (runChunks env rest cs ({}, ld)).1 (runChunks env rest cs ({}, ld)).2).2 := by
  have hle : cs.length ≤ (hdr ++ (encodeAll cs ++ rest)).length := by
    have := length_le_encodeAll cs
    simp only [List.length_append]; omega
  have e : (hdr ++ (encodeAll cs ++ rest)).length + 1
      = cs.length + (((hdr ++ (encodeAll cs ++ rest)).length - cs.length) + 1) := by omega
  unfold parseRom
  rw [e, ← hhdr, parseLoop_chunks env rest cs hdr _ _ _ hcs, parseLoop_succ, hhdr]
  rw [if_neg (by rw [hstop]; simp)]

/-! ## What the accepted chunks leave in the loader and the descriptor -/

theorem chunkEffect_prg (env : Env) (c : Chunk) (next : Nat) (s : RomData × Loader) (i : Nat) :
    (chunkEffect env c next s).2._prgChunks i
      = if c.isBank PRG i then c.payload else s.2._prgChunks i := by
  unfold chunkEffect Chunk.isBank
  generalize chunkNumber (c.tag.getD 3 0) = k
  by_cases hM : c.tag = MAPR
  · simp [hM, MAPR, PRG]
  · simp only [if_neg hM]
    by_cases hP : c.tag.take 3 = PRG
    · simp only [if_pos hP, hP, decide_True, Bool.true_and, decide_eq_true_eq,
        Function.update_apply]
      by_cases hi : k = i
      · simp [hi]
      · simp [hi, Ne.symm hi]
    · simp only [if_neg hP, hP, decide_False, Bool.false_and, Bool.false_eq_true, if_false]
      split_ifs <;> rfl

theorem chunkEffect_chr (env : Env) (c : Chunk) (next : Nat) (s : RomData × Loader) (i : Nat) :
    (chunkEffect env c next s).2._chrChunks i
      = if c.isBank CHR i then c.payload else s.2._chrChunks i := by
  unfold chunkEffect Chunk.isBank
  generalize chunkNumber (c.tag.getD 3 0) = k
  by_cases hM : c.tag = MAPR
  · simp [hM, MAPR, CHR]
  · simp only [if_neg hM]
    by_cases hP : c.tag.take 3 = PRG
    · simp [hP, PRG, CHR]
    · simp only [if_neg hP]
      by_cases hC : c.tag.take 3 = CHR
      · simp only [if_pos hC, hC, decide_True, Bool.true_and, decide_eq_true_eq,
          Function.update_apply]
        by_cases hi : k = i
        · simp [hi]
        · simp [hi, Ne.symm hi]
      · simp only [if_neg hC, hC, decide_False, Bool.false_and, Bool.false_eq_true, if_false]
        split_ifs <;> rfl

theorem chunkEffect_name (env : Env) (c : Chunk) (next : Nat) (s : RomData × Loader) :
    (chunkEffect env c next s).2._mapperName
      = if c.isMAPR then c.name else s.2._mapperName := by
  unfold chunkEffect Chunk.isMAPR
  by_cases hM : c.tag = MAPR
  · simp [hM]
  · simp only [if_neg hM, hM, decide_False, Bool.false_eq_true, if_false]
    split_ifs <;> rfl

theorem chunkEffect_mapperID (env : Env) (c : Chunk) (next : Nat) (s : RomData × Loader) :
    (chunkEffect env c next s).1.MapperID
      = if c.isMAPR then GetMapperID env c.name else s.1.MapperID := by
  unfold chunkEffect Chunk.isMAPR
  by_cases hM : c.tag = MAPR
  · simp [hM]
  · simp only [if_neg hM, hM, decide_False, Bool.false_eq_true, if_false]
    split_ifs <;> rfl

theorem chunkEffect_kept (env : Env) (c : Chunk) (next : Nat) (s : RomData × Loader) :
    (chunkEffect env c next s).1.Error = s.1.Error ∧
    (chunkEffect env c next s).1.PrgRom = s.1.PrgRom ∧
    (chunkEffect env c next s).1.ChrRom = s.1.ChrRom := by
  unfold chunkEffect
  split_ifs <;> simp

/-- The value a sequence of writes leaves: the last one, or the initial value. -/
theorem getLast_filter_cons {β : Type} (p : Chunk → Bool) (f : Chunk → β) (c : Chunk)
    (cs : List Chunk) (d : β) :
    (match ((c :: cs).filter p).getLast? with | some x => f x | none => d)
      = (match (cs.filter p).getLast? with
          | some x => f x
          | none => if p c then f c else d) := by
  by_cases hp : p c = true
  · simp only [List.filter_cons, hp, if_true, List.getLast?_cons]
    cases (cs.filter p).getLast? <;> simp
  · simp only [List.filter_cons, hp, if_false]
    simp

theorem runChunks_prg (env : Env) (rest : List Nat) (i : Nat) :
    ∀ (cs : List Chunk) (s : RomData × Loader),
      (runChunks env rest cs s).2._prgChunks i
        = (match (cs.filter (Chunk.isBank PRG i)).getLast? with
            | some c => c.payload
            | none => s.2._prgChunks i) := by
  intro cs
  induction cs with
  | nil => intro s; simp [runChunks]
  | cons c cs ih =>
    intro s
    rw [runChunks, ih, chunkEffect_prg, getLast_filter_cons]

theorem runChunks_chr (env : Env) (rest : List Nat) (i : Nat) :
    ∀ (cs : List Chunk) (s : RomData × Loader),
      (runChunks env rest cs s).2._chrChunks i
        = (match (cs.filter (Chunk.isBank CHR i)).getLast? with
            | some c => c.payload
            | none => s.2._chrChunks i) := by
  intro cs
  induction cs with
  | nil => intro s; simp [runChunks]
  | cons c cs ih =>
    intro s
    rw [runChunks, ih, chunkEffect_chr, getLast_filter_cons]

theorem runChunks_name (env : Env) (rest : List Nat) :
    ∀ (cs : List Chunk) (s : RomData × Loader),
      (runChunks env rest cs s).2._mapperName
        = (match (cs.filter Chunk.isMAPR).getLast? with
            | some c => c.name
            | none => s.2._mapperName) := by
  intro cs
  induction cs with
  | nil => intro s; simp [runChunks]
  | cons c cs ih =>
    intro s
    rw [runChunks, ih, chunkEffect_name, getLast_filter_cons]

theorem runChunks_mapperID (env : Env) (rest : List Nat) :
    ∀ (cs : List Chunk) (s : RomData × Loader),
      (runChunks env rest cs s).1.MapperID
        = (match (cs.filter Chunk.isMAPR).getLast? with
            | some c => GetMapperID env c.name
            | none => s.1.MapperID) := by
  intro cs
  induction cs with
  | nil => intro s; simp [runChunks]
  | cons c cs ih =>
    intro s
    rw [runChunks, ih, chunkEffect_mapperID, getLast_filter_cons]

theorem runChunks_kept (env : Env) (rest : List Nat) :
    ∀ (cs : List Chunk) (s : RomData × Loader),
      (runChunks env rest cs s).1.Error = s.1.Error ∧
      (runChunks env rest cs s).1.PrgRom = s.1.PrgRom ∧
      (runChunks env rest cs s).1.ChrRom = s.1.ChrRom := by
  intro cs
  induction cs with
  | nil => intro s; simp [runChunks]
  | cons c cs ih =>
    intro s
    rw [runChunks]
    obtain ⟨h1, h2, h3⟩ := ih (chunkEffect env c ((encodeAll cs ++ rest).headD env.pastEnd) s)
    obtain ⟨k1, k2, k3⟩ := chunkEffect_kept env c ((encodeAll cs ++ rest).headD env.pastEnd) s
    exact ⟨h1.trans k1, h2.trans k2, h3.trans k3⟩

/-! ## The end of `LoadRom` -/

theorem assemble_eq (chunks : Nat → List Nat) (rom : List Nat) :
    assemble chunks rom = rom ++ concatSlots chunks := by
  have h : List.range 16 = [0, 1, 2, 3, 4, 5, 6, 7, 8, 9, 10, 11, 12, 13, 14, 15] := by decide
  simp [assemble, concatSlots, h]

theorem headD_encode_append (c : Chunk) (rest : List Nat) (d : Nat) (hc : c.WellFormed) :
    (c.encode ++ rest).headD d = c.tag.headD d := by
  obtain ⟨htag, _⟩ := hc
  rcases hT : c.tag with _ | ⟨a, t⟩
  · rw [hT] at htag; simp at htag
  · simp [Chunk.encode, hT]

theorem encodeAll_append (cs1 cs2 : List Chunk) :
    encodeAll (cs1 ++ cs2) = encodeAll cs1 ++ encodeAll cs2 := by
  induction cs1 with
  | nil => simp [encodeAll]
  | cons c cs ih => simp [encodeAll, ih]

/-- The chunks look at what follows them only through its first byte. -/
theorem runChunks_rest_congr (env : Env) (rest1 rest2 : List Nat)
    (h : rest1.headD env.pastEnd = rest2.headD env.pastEnd) :
    ∀ (cs : List Chunk) (s : RomData × Loader),
      runChunks env rest1 cs s = runChunks env rest2 cs s := by
  intro cs
  induction cs with
  | nil => intro s; rfl
  | cons c cs ih =>
    intro s
    have e : (encodeAll cs ++ rest1).headD env.pastEnd
        = (encodeAll cs ++ rest2).headD env.pastEnd := by
      cases encodeAll cs with
      | nil => simpa using h
      | cons a t => simp
    rw [runChunks, runChunks, e, ih]

/-- `LoadRom` on a file whose chunks are all accepted, followed by fewer than
eight bytes. -/
theorem LoadRom_chunks (env : Env) (ld : Loader) (hdr rest : List Nat) (cs : List Chunk)
    (hhdr : hdr.length = 32) (hcs : ∀ c ∈ cs, c.WellFormed ∧ c.isEmptyMAPR = false)
    (hrest : rest.length < 8) :
    parseRom env ld (hdr ++ (encodeAll cs ++ rest))
      = some (32 + (encodeAll cs).length, (runChunks env rest cs ({}, ld)).1,
          (runChunks env rest cs ({}, ld)).2) ∧
    LoadRom env ld (hdr ++ (encodeAll cs ++ rest))
      = some (finishLoad env (runChunks env rest cs ({}, ld)).1 (runChunks env rest cs ({}, ld)).2,
          (runChunks env rest cs ({}, ld)).2) := by
  have hshort : (hdr ++ (encodeAll cs ++ rest)).length < 32 + (encodeAll cs).length + 8 := by
    simp only [List.length_append]; omega
  have hR := ReadChunk_short env (hdr ++ (encodeAll cs ++ rest)) (32 + (encodeAll cs).length)
    (runChunks env rest cs ({}, ld)).1 (runChunks env rest cs ({}, ld)).2 hshort
  have hP := parseRom_chunks_stop env ld hdr rest cs hhdr hcs (by rw [hR])
  rw [hR] at hP
  refine ⟨hP, ?_⟩
  simp only [LoadRom, hP]

/-- `LoadRom` on a file whose chunks are accepted up to a `MAPR` chunk with an
empty name. -/
theorem LoadRom_emptyMAPR (env : Env) (ld : Loader) (hdr rest : List Nat) (cs : List Chunk)
    (m : Chunk) (hhdr : hdr.length = 32)
    (hcs : ∀ c ∈ cs, c.WellFormed ∧ c.isEmptyMAPR = false)
    (hm : m.WellFormed) (hme : m.isEmptyMAPR = true) :
    parseRom env ld (hdr ++ (encodeAll cs ++ (m.encode ++ rest)))
      = some (32 + (encodeAll cs).length + m.encode.length,
          { (runChunks env m.encode cs ({}, ld)).1 with Error := true },
          { (runChunks env m.encode cs ({}, ld)).2 with _mapperName := [] }) ∧
    LoadRom env ld (hdr ++ (encodeAll cs ++ (m.encode ++ rest)))
      = some (finishLoad env { (runChunks env m.encode cs ({}, ld)).1 with Error := true }
            { (runChunks env m.encode cs ({}, ld)).2 with _mapperName := [] },
          { (runChunks env m.encode cs ({}, ld)).2 with _mapperName := [] }) := by
  have hcongr : runChunks env (m.encode ++ rest) cs ({}, ld) = runChunks env m.encode cs ({}, ld) := by
    apply runChunks_rest_congr
    rw [headD_encode_append m rest _ hm]
    have := headD_encode_append m [] env.pastEnd hm
    simpa using this.symm
  have e : hdr ++ (encodeAll cs ++ (m.encode ++ rest))
      = (hdr ++ encodeAll cs) ++ (m.encode ++ rest) := by simp
  have hlen : (hdr ++ encodeAll cs).length = 32 + (encodeAll cs).length := by
    simp [hhdr]
  have hR : ReadChunk env (hdr ++ (encodeAll cs ++ (m.encode ++ rest)))
      (32 + (encodeAll cs).length)
      (runChunks env (m.encode ++ rest) cs ({}, ld)).1
      (runChunks env (m.encode ++ rest) cs ({}, ld)).2
      = (false, 32 + (encodeAll cs).length + m.encode.length,
          { (runChunks env m.encode cs ({}, ld)).1 with Error := true },
          { (runChunks env m.encode cs ({}, ld)).2 with _mapperName := [] }) := by
    rw [e, ← hlen, ReadChunk_encode env _ rest m _ _ hm, hme, hcongr]
    simp
  have hP := parseRom_chunks_stop env ld hdr (m.encode ++ rest) cs hhdr hcs (by rw [hR])
  rw [hR] at hP
  refine ⟨hP, ?_⟩
  simp only [LoadRom, hP]

theorem finishLoad_roms (env : Env) (rd : RomData) (ld : Loader) (hdb : DbKeepsRoms env) :
    (finishLoad env rd ld).PrgRom = rd.PrgRom ++ concatSlots ld._prgChunks ∧
    (finishLoad env rd ld).ChrRom = rd.ChrRom ++ concatSlots ld._chrChunks := by
  unfold finishLoad
  simp only [assemble_eq]
  split_ifs <;> simp [(hdb _ _ _).1, (hdb _ _ _).2]

theorem finishLoad_error (env : Env) (rd : RomData) (ld : Loader)
    (h : rd.PrgRom ++ concatSlots ld._prgChunks = [] ∨ ld._mapperName = []) :
    finishLoad env rd ld =
      { rd with PrgRom := rd.PrgRom ++ concatSlots ld._prgChunks,
                ChrRom := rd.ChrRom ++ concatSlots ld._chrChunks,
                Error := true } := by
  unfold finishLoad
  simp only [assemble_eq]
  rw [if_pos]
  rcases h with h | h
  · left; simp only [h, List.length_nil]
  · right; exact h

theorem finishLoad_ok (env : Env) (rd : RomData) (ld : Loader) (hdb : DbInert env)
    (hprg : rd.PrgRom ++ concatSlots ld._prgChunks ≠ []) (hname : ld._mapperName ≠ []) :
    finishLoad env rd ld =
      { rd with PrgRom := rd.PrgRom ++ concatSlots ld._prgChunks,
                ChrRom := rd.ChrRom ++ concatSlots ld._chrChunks,
                Format := RomFormat.Unif,
                PrgCrc32 := env.GetCRC (rd.PrgRom ++ concatSlots ld._prgChunks),
                PrgChrCrc32 := env.GetCRC ((rd.PrgRom ++ concatSlots ld._prgChunks)
                  ++ (rd.ChrRom ++ concatSlots ld._chrChunks)),
                PrgChrMd5 := env.GetMd5Sum ((rd.PrgRom ++ concatSlots ld._prgChunks)
                  ++ (rd.ChrRom ++ concatSlots ld._chrChunks)),
                Error := rd.Error || decide (rd.MapperID = env.UnknownBoard) } := by
  unfold finishLoad
  simp only [assemble_eq]
  rw [if_neg]
  · simp only [hdb _ _ _]
    by_cases hU : rd.MapperID = env.UnknownBoard
    · simp [hU]
    · simp [hU]
  · intro h
    rcases h with h | h
    · exact hprg (List.length_eq_zero.mp h)
    · exact hname h

/-! ## Files made of well-formed chunks -/

theorem processed_no_empty (cs : List Chunk) : ∀ c ∈ processed cs, c.isEmptyMAPR = false := by
  intro c hc
  have := List.mem_takeWhile_imp hc
  simpa using this

theorem processed_mem (cs : List Chunk) : ∀ c ∈ processed cs, c ∈ cs :=
  fun _ hc => (List.takeWhile_sublist _).subset hc

theorem processed_split (cs : List Chunk) :
    processed cs = cs ∨ ∃ m cs2, cs = processed cs ++ m :: cs2 ∧ m.isEmptyMAPR = true := by
  induction cs with
  | nil => left; rfl
  | cons c cs ih =>
    by_cases hc : c.isEmptyMAPR = true
    · right
      exact ⟨c, cs, by simp [processed, List.takeWhile_cons, hc], hc⟩
    · have hp : processed (c :: cs) = c :: processed cs := by
        simp [processed, List.takeWhile_cons, hc]
      rcases ih with h | ⟨m, cs2, h, hm⟩
      · left; rw [hp, h]
      · right
        refine ⟨m, cs2, ?_, hm⟩
        rw [hp, List.cons_append, ← h]

theorem processed_eq_self (cs : List Chunk) (h : ∀ c ∈ cs, c.isEmptyMAPR = false) :
    processed cs = cs := by
  rcases processed_split cs with h1 | ⟨m, cs2, h1, hm⟩
  · exact h1
  · have : m ∈ cs := by rw [h1]; simp
    rw [h m this] at hm
    exact absurd hm (by simp)

theorem runChunks_processed_prg (env : Env) (rest : List Nat) (cs : List Chunk) (rd : RomData) :
    (runChunks env rest (processed cs) (rd, Loader.fresh)).2._prgChunks
      = fun i => bankPayload PRG i cs := by
  funext i
  rw [runChunks_prg]
  rfl

theorem runChunks_processed_chr (env : Env) (rest : List Nat) (cs : List Chunk) (rd : RomData) :
    (runChunks env rest (processed cs) (rd, Loader.fresh)).2._chrChunks
      = fun i => bankPayload CHR i cs := by
  funext i
  rw [runChunks_chr]
  rfl

theorem concatSlots_ne_nil (slot : Nat → List Nat) (i : Nat) (hi : i < 16) (h : slot i ≠ []) :
    concatSlots slot ≠ [] := by
  interval_cases i <;> simp [concatSlots, h]

theorem isEmptyMAPR_of_payload (m : Chunk) (hm : m.tag = MAPR)
    (h : m.payload = [] ∨ m.payload.head? = some 0) : m.isEmptyMAPR = true := by
  have hn : m.name = [] := by
    unfold Chunk.name
    rcases h with h | h
    · simp [h]
    · rcases hp : m.payload with _ | ⟨b, t⟩
      · simp
      · rw [hp] at h
        simp at h
        simp [List.takeWhile_cons, h]
  simp [Chunk.isEmptyMAPR, hm, hn]

/-! ## C1: a program chunk and a named board -/

/-- Claim C1 fails as stated.  Each of the three files is made of well-formed
chunks and holds a `PRG` chunk and a `MAPR` chunk with a non-empty name, yet
`LoadRom` on a fresh loader sets `Error`: the board `TEST` is not in the table
(first file, the scenario of the specification), the only `PRG` chunk has no
payload so that `PrgRom` is empty (second file), a later `MAPR` chunk has no
text (third file). -/
theorem loadRom_prg_and_name_counterexample :
    ((∀ c ∈ exUnknownBoardFile, c.WellFormed) ∧
      (∃ c ∈ exUnknownBoardFile, c.tag.take 3 = PRG) ∧
      (∃ c ∈ exUnknownBoardFile, c.tag = MAPR ∧ c.name ≠ []) ∧
      (LoadRom exEnv Loader.fresh (exHeader ++ encodeAll exUnknownBoardFile)).map
        (fun r => (r.1.Error, r.1.PrgRom)) = some (true, [0xAA, 0xBB])) ∧
    ((∀ c ∈ exEmptyPrgFile, c.WellFormed) ∧
      (∃ c ∈ exEmptyPrgFile, c.tag.take 3 = PRG) ∧
      (∃ c ∈ exEmptyPrgFile, c.tag = MAPR ∧ c.name ≠ []) ∧
      (LoadRom exEnv Loader.fresh (exHeader ++ encodeAll exEmptyPrgFile)).map
        (fun r => (r.1.Error, r.1.PrgRom)) = some (true, [])) ∧
    ((∀ c ∈ exLateEmptyNameFile, c.WellFormed) ∧
      (∃ c ∈ exLateEmptyNameFile, c.tag.take 3 = PRG) ∧
      (∃ c ∈ exLateEmptyNameFile, c.tag = MAPR ∧ c.name ≠ []) ∧
      (LoadRom exEnv Loader.fresh (exHeader ++ encodeAll exLateEmptyNameFile)).map
        (fun r => (r.1.Error, r.1.PrgRom)) = some (true, [0xAA, 0xBB])) := by
  decide

/-- Claim C1, amended.  For every buffer made of 32 header bytes followed by
well-formed chunks, none of them a `MAPR` chunk with an empty name, in which
the last `MAPR` chunk names a board that `GetMapperID` resolves to something
other than `UnknownBoard` and some program slot ends up with a non-empty
payload, `LoadRom` on a fresh loader (the game-database step leaving the
descriptor unchanged) returns a descriptor with `Error = false` and a
non-empty `PrgRom`. -/
theorem loadRom_ok_of_known_board (env : Env) (hdr : List Nat) (cs : List Chunk) (m : Chunk)
    (hhdr : hdr.length = 32) (hwf : ∀ c ∈ cs, c.WellFormed)
    (hne : ∀ c ∈ cs, c.tag = MAPR → c.name ≠ [])
    (hlast : (cs.filter Chunk.isMAPR).getLast? = some m)
    (hknown : GetMapperID env m.name ≠ env.UnknownBoard)
    (hprg : ∃ i, i < 16 ∧ bankPayload PRG i cs ≠ [])
    (hdb : DbInert env) :
    ∃ r ld1, LoadRom env Loader.fresh (hdr ++ encodeAll cs) = some (r, ld1) ∧
      r.Error = false ∧ r.PrgRom ≠ [] := by
  have hnoempty : ∀ c ∈ cs, c.isEmptyMAPR = false := by
    intro c hc
    by_cases hM : c.tag = MAPR
    · simp [Chunk.isEmptyMAPR, hM, hne c hc hM]
    · simp [Chunk.isEmptyMAPR, hM]
  have hcs : ∀ c ∈ cs, c.WellFormed ∧ c.isEmptyMAPR = false :=
    fun c hc => ⟨hwf c hc, hnoempty c hc⟩
  have hL := (LoadRom_chunks env Loader.fresh hdr [] cs hhdr hcs (by simp)).2
  rw [List.append_nil] at hL
  have hproc := processed_eq_self cs hnoempty
  have hslots := runChunks_processed_prg env [] cs {}
  rw [hproc] at hslots
  have hname := runChunks_name env [] cs ({}, Loader.fresh)
  have hid := runChunks_mapperID env [] cs ({}, Loader.fresh)
  obtain ⟨hE, hP, _⟩ := runChunks_kept env [] cs ({}, Loader.fresh)
  simp only [hlast] at hname hid
  have hm : m ∈ cs.filter Chunk.isMAPR := List.mem_of_mem_getLast? hlast
  rw [List.mem_filter] at hm
  have hmname : m.name ≠ [] := hne m hm.1 (by simpa [Chunk.isMAPR] using hm.2)
  obtain ⟨i, hi, hpi⟩ := hprg
  have hcat : (runChunks env [] cs ({}, Loader.fresh)).1.PrgRom
      ++ concatSlots (runChunks env [] cs ({}, Loader.fresh)).2._prgChunks ≠ [] := by
    rw [hP, hslots]
    simpa using concatSlots_ne_nil (fun i => bankPayload PRG i cs) i hi hpi
  refine ⟨_, _, hL, ?_, ?_⟩
  · rw [finishLoad_ok env _ _ hdb hcat (by rw [hname]; exact hmname)]
    simp only [hE, hid]
    simp [hknown]
  · rw [finishLoad_ok env _ _ hdb hcat (by rw [hname]; exact hmname)]
    exact hcat

/-- Claim C1, amended, holds on a file naming the board `NROM` with two bytes
in `PRG0`. -/
theorem loadRom_ok_of_known_board_witness :
    ∃ r ld1, LoadRom exEnv Loader.fresh (exHeader ++ encodeAll exGoodFile) = some (r, ld1) ∧
      r.Error = false ∧ r.PrgRom ≠ [] :=
  loadRom_ok_of_known_board exEnv exHeader exGoodFile ⟨MAPR, str "NROM" ++ [0]⟩
    (by decide) (by decide) (by decide) (by decide) (by decide) ⟨0, by decide, by decide⟩
    (fun _ _ _ => rfl)

/-! ## C2: bank reassembly -/

/-- Claim C2.  For every buffer of 32 header bytes followed by well-formed
chunks, `LoadRom` on a fresh loader returns as `PrgRom` the contents of the
program slots 0 to 15 one after the other in ascending order of index, where
the content of a slot is the payload of the last `PRG` chunk processed for it
and nothing when there is none, wherever the chunks stand in the file; and
likewise for `ChrRom` and the `CHR` chunks.  The game-database call is assumed
to leave the two images alone. -/
theorem loadRom_bank_reassembly (env : Env) (hdr : List Nat) (cs : List Chunk)
    (hhdr : hdr.length = 32) (hwf : ∀ c ∈ cs, c.WellFormed) (hdb : DbKeepsRoms env) :
    ∃ r ld1, LoadRom env Loader.fresh (hdr ++ encodeAll cs) = some (r, ld1) ∧
      r.PrgRom = concatSlots (fun i => bankPayload PRG i cs) ∧
      r.ChrRom = concatSlots (fun i => bankPayload CHR i cs) := by
  have hcs : ∀ c ∈ processed cs, c.WellFormed ∧ c.isEmptyMAPR = false :=
    fun c hc => ⟨hwf c (processed_mem cs c hc), processed_no_empty cs c hc⟩
  rcases processed_split cs with h | ⟨m, cs2, h, hm⟩
  · have hL := (LoadRom_chunks env Loader.fresh hdr [] (processed cs) hhdr hcs (by simp)).2
    have e : hdr ++ encodeAll cs = hdr ++ (encodeAll (processed cs) ++ []) := by
      rw [h, List.append_nil]
    rw [← e] at hL
    refine ⟨_, _, hL, ?_, ?_⟩
    · rw [(finishLoad_roms env _ _ hdb).1, runChunks_processed_prg,
        (runChunks_kept env [] _ _).2.1]
      exact List.nil_append _
    · rw [(finishLoad_roms env _ _ hdb).2, runChunks_processed_chr,
        (runChunks_kept env [] _ _).2.2]
      exact List.nil_append _
  · have hmwf : m.WellFormed := hwf m (by rw [h]; simp)
    have hL := (LoadRom_emptyMAPR env Loader.fresh hdr (encodeAll cs2) (processed cs) m hhdr hcs
      hmwf hm).2
    have e : hdr ++ encodeAll cs
        = hdr ++ (encodeAll (processed cs) ++ (m.encode ++ encodeAll cs2)) := by
      conv_lhs => rw [h]
      rw [encodeAll_append]
      rfl
    rw [← e] at hL
    refine ⟨_, _, hL, ?_, ?_⟩
    · rw [(finishLoad_roms env _ _ hdb).1]
      simp only [runChunks_processed_prg, (runChunks_kept env m.encode _ _).2.1]
      exact List.nil_append _
    · rw [(finishLoad_roms env _ _ hdb).2]
      simp only [runChunks_processed_chr, (runChunks_kept env m.encode _ _).2.2]
      exact List.nil_append _

/-- Claim C2 on its two examples: `PRG1` then `PRG0` in file order gives the
payload of `PRG0` followed by that of `PRG1`, and `PRG0` with `PRG3` gives
exactly the two payloads, with no padding for the slots 1 and 2. -/
theorem loadRom_bank_reassembly_witness :
    (∃ r ld1, LoadRom exEnv Loader.fresh (exHeader ++ encodeAll exSwappedBanksFile) = some (r, ld1) ∧
      r.PrgRom = [0x01, 0x02, 0x03, 0x11, 0x12] ∧ r.ChrRom = []) ∧
    (∃ r ld1, LoadRom exEnv Loader.fresh (exHeader ++ encodeAll exSparseBanksFile) = some (r, ld1) ∧
      r.PrgRom = [0x01, 0x02, 0x03, 0x31, 0x32] ∧ r.ChrRom = []) :=
  ⟨loadRom_bank_reassembly exEnv exHeader exSwappedBanksFile (by decide) (by decide)
      (fun _ _ _ => ⟨rfl, rfl⟩),
    loadRom_bank_reassembly exEnv exHeader exSparseBanksFile (by decide) (by decide)
      (fun _ _ _ => ⟨rfl, rfl⟩)⟩

/-! ## C3: a board name without text -/

/-- Claim C3.  In a buffer where well-formed chunks, none of them an empty
`MAPR` chunk, are followed by a `MAPR` chunk whose declared length fits and
whose payload is empty or starts with a zero byte, `LoadRom` returns
`Error = true`, the parse loop ends with its cursor at the end of that chunk,
and whatever follows the chunk has no effect: the descriptor and the data
members of the loader are those obtained from the buffer that ends with the
chunk. -/
theorem loadRom_empty_board_name (env : Env) (ld : Loader) (hdr rest : List Nat)
    (cs : List Chunk) (m : Chunk) (hhdr : hdr.length = 32)
    (hcs : ∀ c ∈ cs, c.WellFormed ∧ c.isEmptyMAPR = false)
    (hm : m.tag = MAPR) (hlen : m.payload.length < 2 ^ 32)
    (hempty : m.payload = [] ∨ m.payload.head? = some 0) :
    ∃ r ld1, LoadRom env ld (hdr ++ encodeAll cs ++ m.encode ++ rest) = some (r, ld1) ∧
      r.Error = true ∧
      (parseRom env ld (hdr ++ encodeAll cs ++ m.encode ++ rest)).map (fun p => p.1)
        = some (hdr ++ encodeAll cs ++ m.encode).length ∧
      LoadRom env ld (hdr ++ encodeAll cs ++ m.encode) = some (r, ld1) := by
  have hwf : m.WellFormed := ⟨by rw [hm]; rfl, hlen⟩
  have hme := isEmptyMAPR_of_payload m hm hempty
  obtain ⟨hP, hL⟩ := LoadRom_emptyMAPR env ld hdr rest cs m hhdr hcs hwf hme
  obtain ⟨_, hL0⟩ := LoadRom_emptyMAPR env ld hdr [] cs m hhdr hcs hwf hme
  have e : hdr ++ encodeAll cs ++ m.encode ++ rest
      = hdr ++ (encodeAll cs ++ (m.encode ++ rest)) := by simp
  have e0 : hdr ++ encodeAll cs ++ m.encode = hdr ++ (encodeAll cs ++ (m.encode ++ [])) := by
    simp
  refine ⟨_, _, by rw [e]; exact hL, ?_, ?_, by rw [e0]; exact hL0⟩
  · rw [finishLoad_error env _ _ (Or.inr rfl)]
  · rw [e, hP]
    simp [hhdr, Nat.add_assoc]

/-- Claim C3 on a file where a `PRG1` chunk follows the empty `MAPR` chunk:
the load fails, the cursor stops at offset 51 (the end of the `MAPR` chunk) and
the result is the one of the file without the `PRG1` chunk. -/
theorem loadRom_empty_board_name_witness :
    ∃ r ld1, LoadRom exEnv Loader.fresh exEmptyNameFile = some (r, ld1) ∧
      r.Error = true ∧
      (parseRom exEnv Loader.fresh exEmptyNameFile).map (fun p => p.1) = some 51 ∧
      LoadRom exEnv Loader.fresh
        (exHeader ++ encodeAll [⟨str "PRG0", [0xAA, 0xBB]⟩] ++ Chunk.encode ⟨MAPR, [0]⟩)
        = some (r, ld1) :=
  loadRom_empty_board_name exEnv Loader.fresh exHeader (encodeAll [⟨str "PRG1", [0xCC]⟩])
    [⟨str "PRG0", [0xAA, 0xBB]⟩] ⟨MAPR, [0]⟩ (by decide) (by decide) rfl (by decide)
    (Or.inr rfl)

/-! ## C5 and C6: board-name resolution -/

theorem take4_eq_iff (p name : List Nat) (h : p.length = 4) :
    name.take 4 = p ↔ p.isPrefixOf name = true := by
  rw [List.isPrefixOf_iff_prefix, List.prefix_iff_eq_take, h]
  exact eq_comm

theorem take4_mem_orgPrefixes_iff (name : List Nat) :
    (name.take 4 = NES_ ∨ name.take 4 = UNL_ ∨ name.take 4 = HVC_ ∨ name.take 4 = BTL_
        ∨ name.take 4 = BMC_)
      ↔ orgPrefixes.any (fun p => p.isPrefixOf name) = true := by
  simp only [orgPrefixes, List.any_cons, List.any_nil, Bool.or_false, Bool.or_eq_true]
  rw [take4_eq_iff NES_ name rfl, take4_eq_iff UNL_ name rfl, take4_eq_iff HVC_ name rfl,
    take4_eq_iff BTL_ name rfl, take4_eq_iff BMC_ name rfl]

theorem GetMapperID_boardKey (env : Env) (name : List Nat) :
    GetMapperID env name =
      (match env._boardMappings.lookup (boardKey name) with
        | some value => value
        | none => env.UnknownBoard) := by
  unfold GetMapperID boardKey
  simp only [take4_mem_orgPrefixes_iff]

/-- Claim C5.  For every board table and every name, `GetMapperID` returns the
value the table stores under the key of the name, and `UnknownBoard` when the
table has no such key; the key is the name without its first four characters
when those are one of `NES-`, `UNL-`, `HVC-`, `BTL-`, `BMC-`, and the name
itself otherwise, also when it is shorter than four characters. -/
theorem getMapperID_lookup (env : Env) (name : List Nat) :
    GetMapperID env name =
      (match env._boardMappings.lookup (boardKey name) with
        | some value => value
        | none => env.UnknownBoard) :=
  GetMapperID_boardKey env name

theorem boardKey_of_no_org (s : List Nat) (hs : ∀ q ∈ orgPrefixes, ¬ q <+: s) :
    boardKey s = s := by
  unfold boardKey
  rw [if_neg]
  intro h
  rw [List.any_eq_true] at h
  obtain ⟨q, hq, hqs⟩ := h
  exact hs q hq (List.isPrefixOf_iff_prefix.mp hqs)

theorem boardKey_org_append (p s : List Nat) (hp : p ∈ orgPrefixes) : boardKey (p ++ s) = s := by
  have h4 : p.length = 4 := by
    simp only [orgPrefixes, List.mem_cons, List.mem_singleton, List.not_mem_nil, or_false] at hp
    rcases hp with h | h | h | h | h <;> rw [h] <;> rfl
  unfold boardKey
  rw [if_pos, ← h4, List.drop_left]
  rw [List.any_eq_true]
  exact ⟨p, hp, List.isPrefixOf_iff_prefix.mpr (List.prefix_append p s)⟩

/-- Claim C6 fails as stated: with a table whose key `NES-X` itself starts with
a prefix, `NES-` followed by the key resolves to the table value 5, while the
key alone is stripped to `X` and resolves to `UnknownBoard`. -/
theorem getMapperID_prefix_counterexample :
    NES_ ∈ orgPrefixes ∧
    (exPrefixedKeyEnv._boardMappings.lookup (str "NES-X")).isSome = true ∧
    GetMapperID exPrefixedKeyEnv (NES_ ++ str "NES-X") = 5 ∧
    GetMapperID exPrefixedKeyEnv (str "NES-X") = exPrefixedKeyEnv.UnknownBoard ∧
    GetMapperID exPrefixedKeyEnv (NES_ ++ str "NES-X")
      ≠ GetMapperID exPrefixedKeyEnv (str "NES-X") := by
  decide

/-- Claim C6, amended.  For every board table, every prefix `p` among `NES-`,
`UNL-`, `HVC-`, `BTL-`, `BMC-` and every name `s` that is a key of the table
and does not itself begin with one of the five prefixes, `GetMapperID (p ++ s)`
and `GetMapperID s` return the same identifier, the value stored under `s`. -/
theorem getMapperID_prefix (env : Env) (p s : List Nat) (value : Int) (hp : p ∈ orgPrefixes)
    (hkey : env._boardMappings.lookup s = some value)
    (hs : ∀ q ∈ orgPrefixes, ¬ q <+: s) :
    GetMapperID env (p ++ s) = GetMapperID env s ∧ GetMapperID env s = value := by
  rw [GetMapperID_boardKey, GetMapperID_boardKey, boardKey_org_append p s hp,
    boardKey_of_no_org s hs, hkey]
  exact ⟨rfl, rfl⟩

/-- Claim C6, amended, on the table entry `NROM`: `NES-NROM` and `NROM` both
resolve to 0. -/
theorem getMapperID_prefix_witness :
    GetMapperID exEnv (NES_ ++ str "NROM") = GetMapperID exEnv (str "NROM") ∧
      GetMapperID exEnv (str "NROM") = 0 :=
  getMapperID_prefix exEnv NES_ (str "NROM") 0 (by decide) (by decide) (by decide)

/-! ## The parse loop on an arbitrary buffer -/

theorem ReadFourCC_cursor (env : Env) (buf : List Nat) (data : Nat) :
    (ReadFourCC env buf data).2 = data + 4 := rfl

theorem Read_u32_cursor (env : Env) (buf : List Nat) (data : Nat) :
    (Read_u32 env buf data).2 = data + 4 := rfl

/-- The shape of a call of `ReadChunk`: the flag, the cursor and the write to
the data members depend on the buffer and the cursor only, the new descriptor
on the old one. -/
theorem ReadChunk_decomp (env : Env) (buf : List Nat) (data : Nat) :
    ∃ (ok : Bool) (d : Nat) (fr : RomData → RomData) (w : Write),
      (∀ rd ld, ReadChunk env buf data rd ld = (ok, d, fr rd, w.apply ld)) ∧
      (ok = true → data + 8 ≤ d ∧ d ≤ buf.length) ∧
      (∀ rd ld, LoopInv env rd ld → LoopInv env (fr rd) (w.apply ld)) := by
  have hunf : ∀ rd ld, ReadChunk env buf data rd ld =
      (if data + 8 > buf.length then (false, data, rd, ld)
      else if data + 4 + 4 + (Read_u32 env buf (data + 4)).1 > buf.length then
        (false, data + 4 + 4, rd, ld)
      else if (ReadFourCC env buf data).1 = MAPR then
        if (ReadString env buf (data + 4 + 4)
            (data + 4 + 4 + (Read_u32 env buf (data + 4)).1)).1.length > 0 then
          (true, data + 4 + 4 + (Read_u32 env buf (data + 4)).1,
            { rd with MapperID := GetMapperID env (ReadString env buf (data + 4 + 4)
                (data + 4 + 4 + (Read_u32 env buf (data + 4)).1)).1 },
            { ld with _mapperName := (ReadString env buf (data + 4 + 4)
                (data + 4 + 4 + (Read_u32 env buf (data + 4)).1)).1 })
        else
          (false, (ReadString env buf (data + 4 + 4)
              (data + 4 + 4 + (Read_u32 env buf (data + 4)).1)).2,
            { rd with Error := true },
            { ld with _mapperName := (ReadString env buf (data + 4 + 4)
                (data + 4 + 4 + (Read_u32 env buf (data + 4)).1)).1 })
      else if (ReadFourCC env buf data).1.take 3 = PRG then
        (true, data + 4 + 4 + (Read_u32 env buf (data + 4)).1, rd,
          { ld with _prgChunks := Function.update ld._prgChunks
                                (chunkNumber ((ReadFourCC env buf data).1.getD 3 0))
                                (Read_bytes buf (data + 4 + 4) (Read_u32 env buf (data + 4)).1).1 })
      else if (ReadFourCC env buf data).1.take 3 = CHR then
        (true, data + 4 + 4 + (Read_u32 env buf (data + 4)).1, rd,
          { ld with _chrChunks := Function.update ld._chrChunks
                                (chunkNumber ((ReadFourCC env buf data).1.getD 3 0))
                                (Read_bytes buf (data + 4 + 4) (Read_u32 env buf (data + 4)).1).1 })
      else if (ReadFourCC env buf data).1 = TVCI then
        (true, data + 4 + 4 + (Read_u32 env buf (data + 4)).1,
          { rd with System :=
              if (Read_u8 env buf (data + 4 + 4)).1 = 1 then GameSystem.NesPal
              else GameSystem.NesNtsc }, ld)
      else if (ReadFourCC env buf data).1 = CTRL then
        (true, data + 4 + 4 + (Read_u32 env buf (data + 4)).1, rd, ld)
      else if (ReadFourCC env buf data).1 = BATR then
        (true, data + 4 + 4 + (Read_u32 env buf (data + 4)).1,
          { rd with HasBattery := decide ((Read_u8 env buf (data + 4 + 4)).1 > 0) }, ld)
      else if (ReadFourCC env buf data).1 = MIRR then
        (true, data + 4 + 4 + (Read_u32 env buf (data + 4)).1,
          { rd with Mirroring := mirroringOf (Read_u8 env buf (data + 4 + 4)).1 }, ld)
      else (true, data + 4 + 4 + (Read_u32 env buf (data + 4)).1, rd, ld)) := by
    intro rd ld
    rfl
  generalize (ReadFourCC env buf data).1 = tag at hunf
  generalize (Read_u32 env buf (data + 4)).1 = len at hunf
  generalize ReadString env buf (data + 4 + 4) (data + 4 + 4 + len) = rs at hunf
  generalize (Read_u8 env buf (data + 4 + 4)).1 = value at hunf
  generalize (Read_bytes buf (data + 4 + 4) len).1 = bytes at hunf
  generalize chunkNumber (tag.getD 3 0) = k at hunf
  by_cases c1 : data + 8 > buf.length
  · refine ⟨false, data, id, Write.none, fun rd ld => ?_, fun h => absurd h (by simp),
      fun rd ld h => h⟩
    rw [hunf, if_pos c1]; rfl
  by_cases c2 : data + 4 + 4 + len > buf.length
  · refine ⟨false, data + 4 + 4, id, Write.none, fun rd ld => ?_, fun h => absurd h (by simp),
      fun rd ld h => h⟩
    rw [hunf, if_neg c1, if_pos c2]; rfl
  have hb : data + 8 ≤ data + 4 + 4 + len ∧ data + 4 + 4 + len ≤ buf.length := by omega
  by_cases c3 : tag = MAPR
  · by_cases c4 : rs.1.length > 0
    · refine ⟨true, data + 4 + 4 + len, fun rd => { rd with MapperID := GetMapperID env rs.1 },
        Write.name rs.1, fun rd ld => ?_, fun _ => hb, fun rd ld h => ?_⟩
      · rw [hunf, if_neg c1, if_neg c2, if_pos c3, if_pos c4]; rfl
      · obtain ⟨h1, h2, h3, h4, h5, _⟩ := h
        exact ⟨h1, h2, h3, h4, h5, fun _ => rfl⟩
    · refine ⟨false, rs.2, fun rd => { rd with Error := true }, Write.name rs.1,
        fun rd ld => ?_, fun h => absurd h (by simp), fun rd ld h => ?_⟩
      · rw [hunf, if_neg c1, if_neg c2, if_pos c3, if_neg c4]; rfl
      · obtain ⟨h1, h2, h3, h4, h5, _⟩ := h
        exact ⟨h1, h2, h3, h4, h5, fun hn => absurd (List.length_pos.mpr hn) c4⟩
  by_cases c5 : tag.take 3 = PRG
  · refine ⟨true, data + 4 + 4 + len, id, Write.prg k bytes, fun rd ld => ?_, fun _ => hb,
      fun rd ld h => h⟩
    rw [hunf, if_neg c1, if_neg c2, if_neg c3, if_pos c5]; rfl
  by_cases c6 : tag.take 3 = CHR
  · refine ⟨true, data + 4 + 4 + len, id, Write.chr k bytes, fun rd ld => ?_, fun _ => hb,
      fun rd ld h => h⟩
    rw [hunf, if_neg c1, if_neg c2, if_neg c3, if_neg c5, if_pos c6]; rfl
  by_cases c7 : tag = TVCI
  · refine ⟨true, data + 4 + 4 + len,
      fun rd => { rd with System := if value = 1 then GameSystem.NesPal else GameSystem.NesNtsc },
      Write.none, fun rd ld => ?_, fun _ => hb, fun rd ld h => h⟩
    rw [hunf, if_neg c1, if_neg c2, if_neg c3, if_neg c5, if_neg c6, if_pos c7]; rfl
  by_cases c8 : tag = CTRL
  · refine ⟨true, data + 4 + 4 + len, id, Write.none, fun rd ld => ?_, fun _ => hb,
      fun rd ld h => h⟩
    rw [hunf, if_neg c1, if_neg c2, if_neg c3, if_neg c5, if_neg c6, if_neg c7, if_pos c8]; rfl
  by_cases c9 : tag = BATR
  · refine ⟨true, data + 4 + 4 + len, fun rd => { rd with HasBattery := decide (value > 0) },
      Write.none, fun rd ld => ?_, fun _ => hb, fun rd ld h => h⟩
    rw [hunf, if_neg c1, if_neg c2, if_neg c3, if_neg c5, if_neg c6, if_neg c7, if_neg c8,
      if_pos c9]; rfl
  by_cases c10 : tag = MIRR
  · refine ⟨true, data + 4 + 4 + len, fun rd => { rd with Mirroring := mirroringOf value },
      Write.none, fun rd ld => ?_, fun _ => hb, fun rd ld h => h⟩
    rw [hunf, if_neg c1, if_neg c2, if_neg c3, if_neg c5, if_neg c6, if_neg c7, if_neg c8,
      if_neg c9, if_pos c10]; rfl
  · refine ⟨true, data + 4 + 4 + len, id, Write.none, fun rd ld => ?_, fun _ => hb,
      fun rd ld h => h⟩
    rw [hunf, if_neg c1, if_neg c2, if_neg c3, if_neg c5, if_neg c6, if_neg c7, if_neg c8,
      if_neg c9, if_neg c10]; rfl

theorem ReadChunk_true_bounds (env : Env) (buf : List Nat) (data : Nat) (rd : RomData)
    (ld : Loader) (h : (ReadChunk env buf data rd ld).1 = true) :
    data + 8 ≤ (ReadChunk env buf data rd ld).2.1 ∧
      (ReadChunk env buf data rd ld).2.1 ≤ buf.length := by
  obtain ⟨ok, d, fr, w, heq, hb, _⟩ := ReadChunk_decomp env buf data
  rw [heq] at h ⊢
  exact hb h

theorem parseLoop_total (env : Env) (buf : List Nat) :
    ∀ (fuel data : Nat) (rd : RomData) (ld : Loader),
      buf.length < data + 8 * (fuel + 1) →
      ∃ r, parseLoop env buf (fuel + 1) data rd ld = some r := by
  intro fuel
  induction fuel with
  | zero =>
    intro data rd ld h
    rw [parseLoop_succ, ReadChunk_short env buf data rd ld (by omega)]
    exact ⟨_, rfl⟩
  | succ fuel ih =>
    intro data rd ld h
    rw [parseLoop_succ]
    by_cases hok : (ReadChunk env buf data rd ld).1 = true
    · rw [if_pos hok]
      have hb := ReadChunk_true_bounds env buf data rd ld hok
      exact ih _ _ _ (by omega)
    · rw [if_neg hok]
      exact ⟨_, rfl⟩

theorem parseRom_total (env : Env) (ld : Loader) (buf : List Nat) :
    ∃ r, parseRom env ld buf = some r :=
  parseLoop_total env buf buf.length 32 {} ld (by omega)

theorem parseLoop_invariant (env : Env) (buf : List Nat) (P : RomData → Loader → Prop)
    (hstep : ∀ data rd ld, P rd ld →
      P (ReadChunk env buf data rd ld).2.2.1 (ReadChunk env buf data rd ld).2.2.2) :
    ∀ (fuel data : Nat) (rd : RomData) (ld : Loader) (r : Nat × RomData × Loader),
      P rd ld → parseLoop env buf fuel data rd ld = some r → P r.2.1 r.2.2 := by
  intro fuel
  induction fuel with
  | zero => intro data rd ld r _ h; simp [parseLoop] at h
  | succ fuel ih =>
    intro data rd ld r hP h
    rw [parseLoop_succ] at h
    by_cases hok : (ReadChunk env buf data rd ld).1 = true
    · rw [if_pos hok] at h
      exact ih _ _ _ r (hstep data rd ld hP) h
    · rw [if_neg hok] at h
      cases h
      exact hstep data rd ld hP

theorem ReadChunk_loopInv (env : Env) (buf : List Nat) (data : Nat) (rd : RomData) (ld : Loader)
    (h : LoopInv env rd ld) :
    LoopInv env (ReadChunk env buf data rd ld).2.2.1 (ReadChunk env buf data rd ld).2.2.2 := by
  obtain ⟨ok, d, fr, w, heq, _, hinv⟩ := ReadChunk_decomp env buf data
  rw [heq]
  exact hinv rd ld h

theorem parseRom_loopInv (env : Env) (buf : List Nat) (r : Nat × RomData × Loader)
    (h : parseRom env Loader.fresh buf = some r) : LoopInv env r.2.1 r.2.2 :=
  parseLoop_invariant env buf (LoopInv env) (ReadChunk_loopInv env buf) _ _ _ _ r
    ⟨rfl, rfl, rfl, rfl, rfl, fun hn => absurd rfl hn⟩ h

/-! ## Running the parse loop again on the members it has left -/

/-- Claim C8.  For every buffer the parse loop of `LoadRom` on a fresh loader
ends, and if the program image assembled from the slots is then empty or the
board name is empty (no non-empty name was read), `LoadRom` returns
`Error = true` and leaves `PrgCrc32`, `PrgChrCrc32` and `PrgChrMd5` at the
values of a default descriptor: no checksum is computed. -/
theorem loadRom_error_without_program_or_name (env : Env) (buf : List Nat) :
    (∃ p, parseRom env Loader.fresh buf = some p) ∧
    ∀ d rd ld1, parseRom env Loader.fresh buf = some (d, rd, ld1) →
      (assemble ld1._prgChunks [] = [] ∨ ld1._mapperName = []) →
      ∃ r, LoadRom env Loader.fresh buf = some (r, ld1) ∧ r.Error = true ∧
        r.PrgCrc32 = ({} : RomData).PrgCrc32 ∧
        r.PrgChrCrc32 = ({} : RomData).PrgChrCrc32 ∧
        r.PrgChrMd5 = ({} : RomData).PrgChrMd5 := by
  refine ⟨parseRom_total env Loader.fresh buf, ?_⟩
  intro d rd ld1 hparse hcond
  obtain ⟨h1, _, h3, h4, h5, _⟩ := parseRom_loopInv env buf _ hparse
  simp only at h1 h3 h4 h5
  refine ⟨finishLoad env rd ld1, by simp only [LoadRom, hparse], ?_⟩
  have hc : rd.PrgRom ++ concatSlots ld1._prgChunks = [] ∨ ld1._mapperName = [] := by
    rcases hcond with h | h
    · left; rw [h1]; rw [assemble_eq] at h; exact h
    · right; exact h
  rw [finishLoad_error env rd ld1 hc]
  exact ⟨rfl, h3, h4, h5⟩

/-- Claim C8 on a file that names a board but has no program chunk: the load
fails and the three checksums are the default ones. -/
theorem loadRom_error_without_program_or_name_witness :
    ∃ r, LoadRom exEnv Loader.fresh (exHeader ++ encodeAll [⟨MAPR, str "NROM" ++ [0]⟩])
        = some (r, { Loader.fresh with _mapperName := str "NROM" }) ∧ r.Error = true ∧
      r.PrgCrc32 = ({} : RomData).PrgCrc32 ∧
      r.PrgChrCrc32 = ({} : RomData).PrgChrCrc32 ∧
      r.PrgChrMd5 = ({} : RomData).PrgChrMd5 :=
  (loadRom_error_without_program_or_name exEnv
      (exHeader ++ encodeAll [⟨MAPR, str "NROM" ++ [0]⟩])).2
    45 { MapperID := 0 } { Loader.fresh with _mapperName := str "NROM" } rfl (Or.inl rfl)

/-- Claim C9.  For every buffer whose parse on a fresh loader ends with a
non-empty board name that `GetMapperID` resolves to `UnknownBoard` and with a
non-empty program image (the game-database step leaving the descriptor
unchanged), `LoadRom` returns `Error = true`, while `PrgRom` and `ChrRom` hold
the full assembled images and the checksums are computed over them. -/
theorem loadRom_unknown_board (env : Env) (buf : List Nat) (d : Nat) (rd : RomData)
    (ld1 : Loader) (hdb : DbInert env)
    (hparse : parseRom env Loader.fresh buf = some (d, rd, ld1))
    (hname : ld1._mapperName ≠ [])
    (hunknown : GetMapperID env ld1._mapperName = env.UnknownBoard)
    (hprg : assemble ld1._prgChunks [] ≠ []) :
    ∃ r, LoadRom env Loader.fresh buf = some (r, ld1) ∧ r.Error = true ∧
      r.PrgRom = assemble ld1._prgChunks [] ∧ r.ChrRom = assemble ld1._chrChunks [] ∧
      r.PrgCrc32 = env.GetCRC r.PrgRom ∧
      r.PrgChrCrc32 = env.GetCRC (r.PrgRom ++ r.ChrRom) ∧
      r.PrgChrMd5 = env.GetMd5Sum (r.PrgRom ++ r.ChrRom) := by
  obtain ⟨h1, h2, _, _, _, h6⟩ := parseRom_loopInv env buf _ hparse
  simp only at h1 h2 h6
  refine ⟨finishLoad env rd ld1, by simp only [LoadRom, hparse], ?_⟩
  have hne : rd.PrgRom ++ concatSlots ld1._prgChunks ≠ [] := by
    rw [h1]; rw [assemble_eq] at hprg; exact hprg
  rw [finishLoad_ok env rd ld1 hdb hne hname]
  simp only [assemble_eq, h1, h2, h6 hname, hunknown, decide_True, Bool.or_true,
    List.nil_append, and_self]

/-- Claim C9 on the scenario of the specification: the board `TEST` is not in
the table, the load fails, and the two bytes of `PRG0` are returned with their
checksums. -/
theorem loadRom_unknown_board_witness :
    ∃ r, LoadRom exEnv Loader.fresh (exHeader ++ encodeAll exUnknownBoardFile)
        = some (r, Write.apply (Write.prg 0 [0xAA, 0xBB])
            { Loader.fresh with _mapperName := str "TEST" }) ∧
      r.Error = true ∧ r.PrgRom = [0xAA, 0xBB] ∧ r.ChrRom = [] ∧
      r.PrgCrc32 = exEnv.GetCRC r.PrgRom ∧
      r.PrgChrCrc32 = exEnv.GetCRC (r.PrgRom ++ r.ChrRom) ∧
      r.PrgChrMd5 = exEnv.GetMd5Sum (r.PrgRom ++ r.ChrRom) :=
  loadRom_unknown_board exEnv (exHeader ++ encodeAll exUnknownBoardFile) 55
    { MapperID := 65535 }
    (Write.apply (Write.prg 0 [0xAA, 0xBB]) { Loader.fresh with _mapperName := str "TEST" })
    (fun _ _ _ => rfl) rfl (by decide) (by decide) (by decide)

/-- A chunk whose tag the dispatch does not recognise is accepted and changes
neither the descriptor nor the data members of the loader. -/
theorem ReadChunk_unrecognised (env : Env) (pre rest : List Nat) (c : Chunk) (rd : RomData)
    (ld : Loader) (hc : c.WellFormed) (h1 : c.tag ≠ MAPR) (h2 : c.tag.take 3 ≠ PRG)
    (h3 : c.tag.take 3 ≠ CHR) (h4 : c.tag ≠ TVCI) (h5 : c.tag ≠ CTRL) (h6 : c.tag ≠ BATR)
    (h7 : c.tag ≠ MIRR) :
    ReadChunk env (pre ++ (c.encode ++ rest)) pre.length rd ld
      = (true, pre.length + c.encode.length, rd, ld) := by
  rw [ReadChunk_encode env pre rest c rd ld hc]
  simp [Chunk.isEmptyMAPR, chunkEffect, h1, h2, h3, h4, h5, h6, h7]

/-- A chunk header that does not fit, or a declared length that exceeds the
bytes left after the header, makes `ReadChunk` return `false` and leaves the
descriptor and the data members as they were. -/
theorem ReadChunk_truncated (env : Env) (buf : List Nat) (data : Nat) (rd : RomData)
    (ld : Loader)
    (h : buf.length < data + 8 ∨ buf.length < data + 8 + (Read_u32 env buf (data + 4)).1) :
    (ReadChunk env buf data rd ld).1 = false ∧ (ReadChunk env buf data rd ld).2.2 = (rd, ld) := by
  by_cases h8 : buf.length < data + 8
  · rw [ReadChunk_short env buf data rd ld h8]
    exact ⟨rfl, rfl⟩
  · have hlen : buf.length < data + 8 + (Read_u32 env buf (data + 4)).1 := h.resolve_left h8
    have c1 : ¬ data + 8 > buf.length := h8
    have c2 : data + 4 + 4 + (Read_u32 env buf (data + 4)).1 > buf.length := by omega
    unfold ReadChunk
    simp only [ReadFourCC_cursor, Read_u32_cursor]
    rw [if_neg c1, if_pos c2]
    exact ⟨rfl, rfl⟩

/-- Claim C4 fails on the code.  `exOddChunk` follows a `MIRR` chunk of
declared length 0 in a playable file; the `MIRR` handler reads the byte after
its chunk, the 1 that starts the next tag, and sets vertical mirroring.  With
the skipped chunk `NAME` inserted at that chunk boundary the handler reads the
letter N instead and the descriptor has horizontal mirroring. -/
theorem unrecognised_chunk_changes_mirroring :
    (∀ c ∈ exEmptyMirrFile ++ [exNameChunk, exOddChunk], c.WellFormed) ∧
    (LoadRom exEnv Loader.fresh (exHeader ++ encodeAll (exEmptyMirrFile ++ [exOddChunk]))).map
        (fun r => r.1)
      = some { PrgRom := [0xAA, 0xBB], Mirroring := MirroringType.Vertical,
               Format := RomFormat.Unif, PrgCrc32 := 357, PrgChrCrc32 := 357,
               PrgChrMd5 := [0xAA, 0xBB] } ∧
    (LoadRom exEnv Loader.fresh
        (exHeader ++ encodeAll (exEmptyMirrFile ++ [exNameChunk, exOddChunk]))).map (fun r => r.1)
      = some { PrgRom := [0xAA, 0xBB], Mirroring := MirroringType.Horizontal,
               Format := RomFormat.Unif, PrgCrc32 := 357, PrgChrCrc32 := 357,
               PrgChrMd5 := [0xAA, 0xBB] } := by
  decide

/-- Claim C7 fails on the code.  Two buffers are the same file, which ends
with a `MIRR` chunk of declared length 0, followed by four bytes of a chunk
header that is cut short.  `ReadChunk` returns `false` on the cut header, yet
the two loads differ from each other, so they cannot both be the load of the
file cut at the start of that chunk: the `MIRR` handler has read the first
byte of the cut header.  On the cut file itself the handler reads the byte past
the end of the buffer: the result follows that byte (0 and 1 are tried). -/
theorem truncated_header_changes_mirroring :
    (LoadRom exEnv Loader.fresh (exHeader ++ encodeAll exEmptyMirrFile ++ [1, 65, 66, 67])).map
        (fun r => (r.1.Error, r.1.Mirroring)) = some (false, MirroringType.Vertical) ∧
    (LoadRom exEnv Loader.fresh (exHeader ++ encodeAll exEmptyMirrFile ++ [2, 65, 66, 67])).map
        (fun r => (r.1.Error, r.1.Mirroring)) = some (false, MirroringType.ScreenAOnly) ∧
    (LoadRom exEnv Loader.fresh (exHeader ++ encodeAll exEmptyMirrFile)).map
        (fun r => (r.1.Error, r.1.Mirroring)) = some (false, MirroringType.Horizontal) ∧
    (LoadRom { exEnv with pastEnd := 1 } Loader.fresh (exHeader ++ encodeAll exEmptyMirrFile)).map
        (fun r => (r.1.Error, r.1.Mirroring)) = some (false, MirroringType.Vertical) := by
  decide

/-! ## C11, C12, C13: bank chunks and mirroring -/

theorem chunkNumber_lt (c : Nat) : chunkNumber c < 16 := by
  unfold chunkNumber
  split_ifs <;> omega

theorem chunkNumber_not_hex (c : Nat) (h1 : ¬ (48 ≤ c ∧ c ≤ 57)) (h2 : ¬ (97 ≤ c ∧ c ≤ 102))
    (h3 : ¬ (65 ≤ c ∧ c ≤ 70)) : chunkNumber c = 0 := by
  unfold chunkNumber
  rw [if_neg h1, if_neg h2, if_neg h3]

/-- Claim C11 fails on the code.  For a well-formed `PRG` chunk whose fourth
tag character is not a hexadecimal digit, `ReadChunk` reports success and
stores the payload in program slot 0; a `CHR` chunk goes to character slot 0
in the same way.  (The failed extraction leaves 0 in `chunkNumber`, and no
check of the stream follows.) -/
theorem bad_digit_goes_to_slot_zero (env : Env) (pre rest : List Nat) (c : Chunk) (rd : RomData)
    (ld : Loader) (hc : c.WellFormed)
    (h1 : ¬ (48 ≤ c.tag.getD 3 0 ∧ c.tag.getD 3 0 ≤ 57))
    (h2 : ¬ (97 ≤ c.tag.getD 3 0 ∧ c.tag.getD 3 0 ≤ 102))
    (h3 : ¬ (65 ≤ c.tag.getD 3 0 ∧ c.tag.getD 3 0 ≤ 70)) :
    (c.tag.take 3 = PRG →
      (ReadChunk env (pre ++ (c.encode ++ rest)) pre.length rd ld).1 = true ∧
      (ReadChunk env (pre ++ (c.encode ++ rest)) pre.length rd ld).2.2.2._prgChunks 0
        = c.payload) ∧
    (c.tag.take 3 = CHR →
      (ReadChunk env (pre ++ (c.encode ++ rest)) pre.length rd ld).1 = true ∧
      (ReadChunk env (pre ++ (c.encode ++ rest)) pre.length rd ld).2.2.2._chrChunks 0
        = c.payload) := by
  have hk := chunkNumber_not_hex _ h1 h2 h3
  rw [ReadChunk_encode env pre rest c rd ld hc]
  constructor
  · intro hP
    have hM : c.isEmptyMAPR = false := by
      have : c.tag ≠ MAPR := by
        intro h; rw [h] at hP; exact absurd hP (by decide)
      simp [Chunk.isEmptyMAPR, this]
    rw [hM]
    refine ⟨rfl, ?_⟩
    simp only [Bool.false_eq_true, if_false]
    rw [chunkEffect_prg]
    simp only [Chunk.isBank, hP, hk, decide_True, Bool.and_self, if_true]
  · intro hC
    have hM : c.isEmptyMAPR = false := by
      have : c.tag ≠ MAPR := by
        intro h; rw [h] at hC; exact absurd hC (by decide)
      simp [Chunk.isEmptyMAPR, this]
    rw [hM]
    refine ⟨rfl, ?_⟩
    simp only [Bool.false_eq_true, if_false]
    rw [chunkEffect_chr]
    simp only [Chunk.isBank, hC, hk, decide_True, Bool.and_self, if_true]

/-- Claim C11 fails on the chunk `PRGZ` with payload `EE FF` placed right
after the header: the call succeeds and slot 0 holds `EE FF`. -/
theorem bad_digit_goes_to_slot_zero_witness :
    (ReadChunk exEnv (exHeader ++ (exBadDigitChunk.encode ++ [])) exHeader.length {}
        Loader.fresh).1 = true ∧
    (ReadChunk exEnv (exHeader ++ (exBadDigitChunk.encode ++ [])) exHeader.length {}
        Loader.fresh).2.2.2._prgChunks 0 = [0xEE, 0xFF] :=
  (bad_digit_goes_to_slot_zero exEnv exHeader [] exBadDigitChunk {} Loader.fresh (by decide)
    (by decide) (by decide) (by decide)).1 (by decide)

theorem concatSlots_update_fresh (k : Nat) (hk : k < 16) (bytes : List Nat) :
    concatSlots (Function.update (fun _ => []) k bytes) = bytes := by
  interval_cases k <;> simp [concatSlots, Function.update_apply]

theorem chunkEffect_of_prg (env : Env) (c : Chunk) (next : Nat) (s : RomData × Loader)
    (h : c.tag.take 3 = PRG) :
    chunkEffect env c next s
      = (s.1, { s.2 with _prgChunks :=
                  Function.update s.2._prgChunks (chunkNumber (c.tag.getD 3 0)) c.payload }) := by
  have hM : c.tag ≠ MAPR := by
    intro hm; rw [hm] at h; exact absurd h (by decide)
  unfold chunkEffect
  rw [if_neg hM, if_pos h]

theorem chunkEffect_of_chr (env : Env) (c : Chunk) (next : Nat) (s : RomData × Loader)
    (h : c.tag.take 3 = CHR) :
    chunkEffect env c next s
      = (s.1, { s.2 with _chrChunks :=
                  Function.update s.2._chrChunks (chunkNumber (c.tag.getD 3 0)) c.payload }) := by
  have hM : c.tag ≠ MAPR := by
    intro hm; rw [hm] at h; exact absurd h (by decide)
  have hP : c.tag.take 3 ≠ PRG := by
    rw [h]; decide
  unfold chunkEffect
  rw [if_neg hM, if_neg hP, if_pos h]

theorem isEmptyMAPR_of_bank (c : Chunk) (h : c.tag.take 3 = PRG ∨ c.tag.take 3 = CHR) :
    c.isEmptyMAPR = false := by
  have hM : c.tag ≠ MAPR := by
    intro hm; rw [hm] at h; exact absurd h (by decide)
  simp [Chunk.isEmptyMAPR, hM]

/-- Claim C12.  When two well-formed chunks with the same `PRG` tag follow each
other, `ReadChunk` accepts both and the slot of the tag then holds exactly the
payload of the second chunk, with exactly its length, whatever the slot held
before and whatever the two lengths; on a fresh loader the image assembled
from the slots is that payload alone, with no byte of the first chunk.  The
same holds for two chunks with the same `CHR` tag. -/
theorem bank_chunk_overwrites (env : Env) (pre rest : List Nat) (c1 c2 : Chunk) (rd : RomData)
    (ld : Loader) (h1 : c1.WellFormed) (h2 : c2.WellFormed) (ht : c1.tag = c2.tag) :
    (c1.tag.take 3 = PRG →
      ∃ ld1 ld2,
        ReadChunk env (pre ++ (c1.encode ++ (c2.encode ++ rest))) pre.length rd ld
          = (true, pre.length + c1.encode.length, rd, ld1) ∧
        ReadChunk env (pre ++ (c1.encode ++ (c2.encode ++ rest)))
            (pre.length + c1.encode.length) rd ld1
          = (true, pre.length + c1.encode.length + c2.encode.length, rd, ld2) ∧
        ld2._prgChunks (chunkNumber (c1.tag.getD 3 0)) = c2.payload ∧
        (ld2._prgChunks (chunkNumber (c1.tag.getD 3 0))).length = c2.payload.length ∧
        (ld = Loader.fresh → assemble ld2._prgChunks [] = c2.payload)) ∧
    (c1.tag.take 3 = CHR →
      ∃ ld1 ld2,
        ReadChunk env (pre ++ (c1.encode ++ (c2.encode ++ rest))) pre.length rd ld
          = (true, pre.length + c1.encode.length, rd, ld1) ∧
        ReadChunk env (pre ++ (c1.encode ++ (c2.encode ++ rest)))
            (pre.length + c1.encode.length) rd ld1
          = (true, pre.length + c1.encode.length + c2.encode.length, rd, ld2) ∧
        ld2._chrChunks (chunkNumber (c1.tag.getD 3 0)) = c2.payload ∧
        (ld2._chrChunks (chunkNumber (c1.tag.getD 3 0))).length = c2.payload.length ∧
        (ld = Loader.fresh → assemble ld2._chrChunks [] = c2.payload)) := by
  have e : pre ++ (c1.encode ++ (c2.encode ++ rest)) = (pre ++ c1.encode) ++ (c2.encode ++ rest) := by
    simp
  have hl : (pre ++ c1.encode).length = pre.length + c1.encode.length := by simp
  constructor
  · intro hP
    have hP2 : c2.tag.take 3 = PRG := ht ▸ hP
    have r1 := ReadChunk_encode env pre (c2.encode ++ rest) c1 rd ld h1
    rw [isEmptyMAPR_of_bank c1 (Or.inl hP), chunkEffect_of_prg env c1 _ _ hP] at r1
    simp only [Bool.false_eq_true, if_false] at r1
    refine ⟨Write.apply (Write.prg (chunkNumber (c1.tag.getD 3 0)) c1.payload) ld,
      Write.apply (Write.prg (chunkNumber (c2.tag.getD 3 0)) c2.payload)
        (Write.apply (Write.prg (chunkNumber (c1.tag.getD 3 0)) c1.payload) ld),
      r1, ?_, ?_, ?_, ?_⟩
    · rw [e, ← hl, ReadChunk_encode env (pre ++ c1.encode) rest c2 rd _ h2,
        isEmptyMAPR_of_bank c2 (Or.inl hP2), chunkEffect_of_prg env c2 _ _ hP2]
      simp only [Bool.false_eq_true, if_false, Write.apply, Nat.add_assoc]
    · simp [Write.apply, ht]
    · simp [Write.apply, ht]
    · intro hf
      rw [assemble_eq, hf]
      simp only [Write.apply, Loader.fresh, ht, Function.update_idem, List.nil_append]
      exact concatSlots_update_fresh _ (chunkNumber_lt _) _
  · intro hC
    have hC2 : c2.tag.take 3 = CHR := ht ▸ hC
    have r1 := ReadChunk_encode env pre (c2.encode ++ rest) c1 rd ld h1
    rw [isEmptyMAPR_of_bank c1 (Or.inr hC), chunkEffect_of_chr env c1 _ _ hC] at r1
    simp only [Bool.false_eq_true, if_false] at r1
    refine ⟨Write.apply (Write.chr (chunkNumber (c1.tag.getD 3 0)) c1.payload) ld,
      Write.apply (Write.chr (chunkNumber (c2.tag.getD 3 0)) c2.payload)
        (Write.apply (Write.chr (chunkNumber (c1.tag.getD 3 0)) c1.payload) ld),
      r1, ?_, ?_, ?_, ?_⟩
    · rw [e, ← hl, ReadChunk_encode env (pre ++ c1.encode) rest c2 rd _ h2,
        isEmptyMAPR_of_bank c2 (Or.inr hC2), chunkEffect_of_chr env c2 _ _ hC2]
      simp only [Bool.false_eq_true, if_false, Write.apply, Nat.add_assoc]
    · simp [Write.apply, ht]
    · simp [Write.apply, ht]
    · intro hf
      rw [assemble_eq, hf]
      simp only [Write.apply, Loader.fresh, ht, Function.update_idem, List.nil_append]
      exact concatSlots_update_fresh _ (chunkNumber_lt _) _

/-- Claim C12 on `PRG0` written twice, three bytes and then one byte: both
calls succeed and the slot and the assembled image hold the one byte. -/
theorem bank_chunk_overwrites_witness :
    ∃ ld1 ld2,
      ReadChunk exEnv (exHeader ++ (Chunk.encode ⟨str "PRG0", [1, 2, 3]⟩
          ++ (Chunk.encode ⟨str "PRG0", [9]⟩ ++ []))) exHeader.length {} Loader.fresh
        = (true, exHeader.length + (Chunk.encode ⟨str "PRG0", [1, 2, 3]⟩).length, {}, ld1) ∧
      ReadChunk exEnv (exHeader ++ (Chunk.encode ⟨str "PRG0", [1, 2, 3]⟩
          ++ (Chunk.encode ⟨str "PRG0", [9]⟩ ++ [])))
          (exHeader.length + (Chunk.encode ⟨str "PRG0", [1, 2, 3]⟩).length) {} ld1
        = (true, exHeader.length + (Chunk.encode ⟨str "PRG0", [1, 2, 3]⟩).length
            + (Chunk.encode ⟨str "PRG0", [9]⟩).length, {}, ld2) ∧
      ld2._prgChunks (chunkNumber ((str "PRG0").getD 3 0)) = [9] ∧
      (ld2._prgChunks (chunkNumber ((str "PRG0").getD 3 0))).length = 1 ∧
      (Loader.fresh = Loader.fresh → assemble ld2._prgChunks [] = [9]) :=
  (bank_chunk_overwrites exEnv exHeader [] ⟨str "PRG0", [1, 2, 3]⟩ ⟨str "PRG0", [9]⟩ {}
    Loader.fresh (by decide) (by decide) rfl).1 (by decide)

/-- Claim C13.  For every `MIRR` chunk whose payload starts with a byte `v`,
`ReadChunk` succeeds and returns the descriptor it was given with `Mirroring`
set to `Horizontal` for 0, `Vertical` for 1, `ScreenAOnly` for 2,
`ScreenBOnly` for 3, `FourScreens` for 4 and `Horizontal` for every `v` from
5 on, no other field changed, and the data members of the loader, bank slots
included, as they were. -/
theorem mirr_chunk_sets_mirroring (env : Env) (pre rest : List Nat) (v : Nat) (t : List Nat)
    (rd : RomData) (ld : Loader) (hlen : (v :: t).length < 2 ^ 32) :
    ∃ m, ReadChunk env (pre ++ (Chunk.encode ⟨MIRR, v :: t⟩ ++ rest)) pre.length rd ld
        = (true, pre.length + (Chunk.encode ⟨MIRR, v :: t⟩).length,
            { rd with Mirroring := m }, ld) ∧
      (v = 0 → m = MirroringType.Horizontal) ∧ (v = 1 → m = MirroringType.Vertical) ∧
      (v = 2 → m = MirroringType.ScreenAOnly) ∧ (v = 3 → m = MirroringType.ScreenBOnly) ∧
      (v = 4 → m = MirroringType.FourScreens) ∧ (5 ≤ v → m = MirroringType.Horizontal) := by
  refine ⟨mirroringOf v, ?_, ?_⟩
  · rw [ReadChunk_encode env pre rest ⟨MIRR, v :: t⟩ rd ld ⟨rfl, hlen⟩]
    rfl
  · refine ⟨?_, ?_, ?_, ?_, ?_, ?_⟩
    · intro h; rw [h]; rfl
    · intro h; rw [h]; rfl
    · intro h; rw [h]; rfl
    · intro h; rw [h]; rfl
    · intro h; rw [h]; rfl
    · intro h
      match v, h with
      | n + 5, _ => rfl

/-- Claim C13 on a `MIRR` chunk with payload byte 2, in a descriptor that
already has a battery: the mirroring becomes `ScreenAOnly`, the rest stays. -/
theorem mirr_chunk_sets_mirroring_witness :
    ∃ m, ReadChunk exEnv (exHeader ++ (Chunk.encode ⟨MIRR, [2]⟩ ++ [])) exHeader.length
          { HasBattery := true } Loader.fresh
        = (true, exHeader.length + (Chunk.encode ⟨MIRR, [2]⟩).length,
            { HasBattery := true, Mirroring := m }, Loader.fresh) ∧
      (2 = 0 → m = MirroringType.Horizontal) ∧ (2 = 1 → m = MirroringType.Vertical) ∧
      (2 = 2 → m = MirroringType.ScreenAOnly) ∧ (2 = 3 → m = MirroringType.ScreenBOnly) ∧
      (2 = 4 → m = MirroringType.FourScreens) ∧ (5 ≤ 2 → m = MirroringType.Horizontal) :=
  mirr_chunk_sets_mirroring exEnv exHeader [] 2 [] { HasBattery := true } Loader.fresh
    (by decide)

/-! ## C14: a loader that has loaded another file -/

theorem ReadChunk_unfold (env : Env) (buf : List Nat) (data : Nat) (rd : RomData) (ld : Loader) :
    ReadChunk env buf data rd ld =
      (if data + 8 > buf.length then (false, data, rd, ld)
      else if data + 4 + 4 + (Read_u32 env buf (data + 4)).1 > buf.length then
        (false, data + 4 + 4, rd, ld)
      else if (ReadFourCC env buf data).1 = MAPR then
        if (ReadString env buf (data + 4 + 4)
            (data + 4 + 4 + (Read_u32 env buf (data + 4)).1)).1.length > 0 then
          (true, data + 4 + 4 + (Read_u32 env buf (data + 4)).1,
            { rd with MapperID := GetMapperID env (ReadString env buf (data + 4 + 4)
                (data + 4 + 4 + (Read_u32 env buf (data + 4)).1)).1 },
            { ld with _mapperName := (ReadString env buf (data + 4 + 4)
                (data + 4 + 4 + (Read_u32 env buf (data + 4)).1)).1 })
        else
          (false, (ReadString env buf (data + 4 + 4)
              (data + 4 + 4 + (Read_u32 env buf (data + 4)).1)).2,
            { rd with Error := true },
            { ld with _mapperName := (ReadString env buf (data + 4 + 4)
                (data + 4 + 4 + (Read_u32 env buf (data + 4)).1)).1 })
      else if (ReadFourCC env buf data).1.take 3 = PRG then
        (true, data + 4 + 4 + (Read_u32 env buf (data + 4)).1, rd,
          { ld with _prgChunks := Function.update ld._prgChunks
                                (chunkNumber ((ReadFourCC env buf data).1.getD 3 0))
                                (Read_bytes buf (data + 4 + 4) (Read_u32 env buf (data + 4)).1).1 })
      else if (ReadFourCC env buf data).1.take 3 = CHR then
        (true, data + 4 + 4 + (Read_u32 env buf (data + 4)).1, rd,
          { ld with _chrChunks := Function.update ld._chrChunks
                                (chunkNumber ((ReadFourCC env buf data).1.getD 3 0))
                                (Read_bytes buf (data + 4 + 4) (Read_u32 env buf (data + 4)).1).1 })
      else if (ReadFourCC env buf data).1 = TVCI then
        (true, data + 4 + 4 + (Read_u32 env buf (data + 4)).1,
          { rd with System :=
              if (Read_u8 env buf (data + 4 + 4)).1 = 1 then GameSystem.NesPal
              else GameSystem.NesNtsc }, ld)
      else if (ReadFourCC env buf data).1 = CTRL then
        (true, data + 4 + 4 + (Read_u32 env buf (data + 4)).1, rd, ld)
      else if (ReadFourCC env buf data).1 = BATR then
        (true, data + 4 + 4 + (Read_u32 env buf (data + 4)).1,
          { rd with HasBattery := decide ((Read_u8 env buf (data + 4 + 4)).1 > 0) }, ld)
      else if (ReadFourCC env buf data).1 = MIRR then
        (true, data + 4 + 4 + (Read_u32 env buf (data + 4)).1,
          { rd with Mirroring := mirroringOf (Read_u8 env buf (data + 4 + 4)).1 }, ld)
      else (true, data + 4 + 4 + (Read_u32 env buf (data + 4)).1, rd, ld)) := rfl

theorem ReadChunk_true_cursor (env : Env) (buf : List Nat) (data : Nat) (rd : RomData)
    (ld : Loader) (h : (ReadChunk env buf data rd ld).1 = true) :
    (ReadChunk env buf data rd ld).2.1 = data + 8 + (Read_u32 env buf (data + 4)).1 := by
  rw [ReadChunk_unfold] at h ⊢
  generalize (ReadFourCC env buf data).1 = tag at h ⊢
  generalize (Read_u32 env buf (data + 4)).1 = len at h ⊢
  generalize ReadString env buf (data + 4 + 4) (data + 4 + 4 + len) = rs at h ⊢
  generalize (Read_u8 env buf (data + 4 + 4)).1 = value at h ⊢
  generalize (Read_bytes buf (data + 4 + 4) len).1 = bytes at h ⊢
  generalize chunkNumber (tag.getD 3 0) = k at h ⊢
  by_cases c1 : data + 8 > buf.length
  · rw [if_pos c1] at h; exact absurd h Bool.false_ne_true
  rw [if_neg c1] at h ⊢
  by_cases c2 : data + 4 + 4 + len > buf.length
  · rw [if_pos c2] at h; exact absurd h Bool.false_ne_true
  rw [if_neg c2] at h ⊢
  by_cases c3 : tag = MAPR
  · rw [if_pos c3] at h ⊢
    by_cases c4 : rs.1.length > 0
    · rw [if_pos c4]
    · rw [if_neg c4] at h; exact absurd h Bool.false_ne_true
  rw [if_neg c3]
  by_cases c5 : tag.take 3 = PRG
  · rw [if_pos c5]
  rw [if_neg c5]
  by_cases c6 : tag.take 3 = CHR
  · rw [if_pos c6]
  rw [if_neg c6]
  by_cases c7 : tag = TVCI
  · rw [if_pos c7]
  rw [if_neg c7]
  by_cases c8 : tag = CTRL
  · rw [if_pos c8]
  rw [if_neg c8]
  by_cases c9 : tag = BATR
  · rw [if_pos c9]
  rw [if_neg c9]
  by_cases c10 : tag = MIRR
  · rw [if_pos c10]
  rw [if_neg c10]

/-- Claim C16.  Whenever `ReadChunk` returns `true`, the cursor it leaves is
the chunk start plus 8 plus the length declared in the chunk header, whatever
the tag and whatever the handler has read, and the parse loop calls
`ReadChunk` next at that cursor. -/
theorem readChunk_repositions (env : Env) (buf : List Nat) (data fuel : Nat) (rd : RomData)
    (ld : Loader) (h : (ReadChunk env buf data rd ld).1 = true) :
    (ReadChunk env buf data rd ld).2.1 = data + 8 + (Read_u32 env buf (data + 4)).1 ∧
    parseLoop env buf (fuel + 1) data rd ld
      = parseLoop env buf fuel (data + 8 + (Read_u32 env buf (data + 4)).1)
          (ReadChunk env buf data rd ld).2.2.1 (ReadChunk env buf data rd ld).2.2.2 := by
  have hc := ReadChunk_true_cursor env buf data rd ld h
  refine ⟨hc, ?_⟩
  rw [parseLoop_succ, if_pos h, hc]

/-- Claim C16 on a `MIRR` chunk of declared length 10 that starts at offset
32: the handler reads one byte, the cursor is left at offset 50, 18 bytes after
the start of the chunk. -/
theorem readChunk_repositions_witness :
    (Read_u32 exEnv (exHeader ++ exLongMirrChunk.encode) (32 + 4)).1 = 10 ∧
    handlerReads exEnv (exHeader ++ exLongMirrChunk.encode) 32 = [40] ∧
    (ReadChunk exEnv (exHeader ++ exLongMirrChunk.encode) 32 {} Loader.fresh).2.1 = 32 + 18 ∧
    (ReadChunk exEnv (exHeader ++ exLongMirrChunk.encode) 32 {} Loader.fresh).2.1
        = 32 + 8 + (Read_u32 exEnv (exHeader ++ exLongMirrChunk.encode) (32 + 4)).1 ∧
      parseLoop exEnv (exHeader ++ exLongMirrChunk.encode) (1 + 1) 32 {} Loader.fresh
        = parseLoop exEnv (exHeader ++ exLongMirrChunk.encode) 1
            (32 + 8 + (Read_u32 exEnv (exHeader ++ exLongMirrChunk.encode) (32 + 4)).1)
            (ReadChunk exEnv (exHeader ++ exLongMirrChunk.encode) 32 {} Loader.fresh).2.2.1
            (ReadChunk exEnv (exHeader ++ exLongMirrChunk.encode) 32 {} Loader.fresh).2.2.2 :=
  ⟨by decide, by decide, by decide,
    readChunk_repositions exEnv (exHeader ++ exLongMirrChunk.encode) 32 1 {} Loader.fresh
      (by decide)⟩

theorem successfulReads_succ (env : Env) (buf : List Nat) (fuel data : Nat) (rd : RomData)
    (ld : Loader) :
    successfulReads env buf (fuel + 1) data rd ld =
      if (ReadChunk env buf data rd ld).1 = true then
        successfulReads env buf fuel (ReadChunk env buf data rd ld).2.1
          (ReadChunk env buf data rd ld).2.2.1 (ReadChunk env buf data rd ld).2.2.2 + 1
      else 0 := by
  rw [successfulReads]
  rcases h : ReadChunk env buf data rd ld with ⟨ok, d, r, l⟩
  cases ok <;> simp

theorem successfulReads_bound (env : Env) (buf : List Nat) :
    ∀ (fuel data : Nat) (rd : RomData) (ld : Loader),
      8 * successfulReads env buf fuel data rd ld ≤ buf.length - data := by
  intro fuel
  induction fuel with
  | zero => intro data rd ld; simp [successfulReads]
  | succ fuel ih =>
    intro data rd ld
    rw [successfulReads_succ]
    by_cases hok : (ReadChunk env buf data rd ld).1 = true
    · rw [if_pos hok]
      have hb := ReadChunk_true_bounds env buf data rd ld hok
      have := ih (ReadChunk env buf data rd ld).2.1 (ReadChunk env buf data rd ld).2.2.1
        (ReadChunk env buf data rd ld).2.2.2
      omega
    · rw [if_neg hok]
      omega

/-- Claim C17.  For every buffer, a call of `ReadChunk` that returns `true`
moves the cursor forward by at least 8 bytes and not beyond the end of the
buffer; the parse loop of `LoadRom` ends, after at most `(n - 32) / 8` calls
that return `true` for a buffer of `n` bytes, and after none when `n < 40`. -/
theorem parse_loop_terminates (env : Env) (ld : Loader) (buf : List Nat) :
    (∀ data rd ld0, (ReadChunk env buf data rd ld0).1 = true →
      data + 8 ≤ (ReadChunk env buf data rd ld0).2.1 ∧
      (ReadChunk env buf data rd ld0).2.1 ≤ buf.length) ∧
    (∃ r, parseRom env ld buf = some r) ∧
    (∃ r, parseLoop env buf ((buf.length - 32) / 8 + 1) 32 {} ld = some r) ∧
    successfulReads env buf (buf.length + 1) 32 {} ld ≤ (buf.length - 32) / 8 ∧
    (buf.length < 40 → successfulReads env buf (buf.length + 1) 32 {} ld = 0) := by
  have hb := successfulReads_bound env buf (buf.length + 1) 32 {} ld
  refine ⟨fun data rd ld0 h => ReadChunk_true_bounds env buf data rd ld0 h,
    parseRom_total env ld buf, parseLoop_total env buf _ 32 {} ld (by omega), by omega,
    fun h => by omega⟩

/-! ## C15: the bytes the handlers read -/

theorem headerReads_lt (buf : List Nat) (data : Nat) : ∀ i ∈ headerReads buf data, i < buf.length := by
  intro i hi
  unfold headerReads at hi
  by_cases c1 : data + 8 > buf.length
  · rw [if_pos c1] at hi; simp at hi
  · rw [if_neg c1] at hi
    simp only [List.mem_cons, List.mem_singleton, List.not_mem_nil, or_false] at hi
    omega

theorem ReadStringReads_bounds (env : Env) (buf : List Nat) (chunkEnd : Nat) :
    ∀ (fuel data : Nat), ∀ i ∈ ReadStringReads env buf chunkEnd fuel data,
      data ≤ i ∧ i < chunkEnd := by
  intro fuel
  induction fuel with
  | zero => intro data i hi; simp [ReadStringReads] at hi
  | succ fuel ih =>
    intro data i hi
    rw [ReadStringReads] at hi
    by_cases c1 : data < chunkEnd
    · rw [if_pos c1] at hi
      by_cases c2 : byteAt env buf data = 0
      · rw [if_pos c2] at hi
        simp only [List.mem_singleton] at hi
        omega
      · rw [if_neg c2] at hi
        rcases List.mem_cons.mp hi with h | h
        · omega
        · have := ih (data + 1) i h
          omega
    · rw [if_neg c1] at hi; simp at hi

/-- Where the handlers read.  Every byte a handler reads lies at or after the
start of the payload and inside the declared payload, except the one byte of
`TVCI`, `BATR` and `MIRR` when the declared length is 0: that byte is the one
right after the chunk. -/
theorem handlerReads_bounds (env : Env) (buf : List Nat) (data : Nat) :
    ∀ i ∈ handlerReads env buf data,
      data + 8 ≤ i ∧ i ≤ buf.length ∧
      (i < data + 8 + (Read_u32 env buf (data + 4)).1 ∨
        ((Read_u32 env buf (data + 4)).1 = 0 ∧ i = data + 8 ∧
          ((ReadFourCC env buf data).1 = TVCI ∨ (ReadFourCC env buf data).1 = BATR
            ∨ (ReadFourCC env buf data).1 = MIRR))) := by
  intro i hi
  unfold handlerReads at hi
  simp only [ReadFourCC_cursor, Read_u32_cursor] at hi
  generalize (ReadFourCC env buf data).1 = tag at hi ⊢
  generalize (Read_u32 env buf (data + 4)).1 = len at hi ⊢
  by_cases c1 : data + 8 > buf.length
  · rw [if_pos c1] at hi; simp at hi
  rw [if_neg c1] at hi
  by_cases c2 : data + 4 + 4 + len > buf.length
  · rw [if_pos c2] at hi; simp at hi
  rw [if_neg c2] at hi
  have one : i = data + 4 + 4 →
      data + 8 ≤ i ∧ i ≤ buf.length ∧ (i < data + 8 + len ∨ (len = 0 ∧ i = data + 8 ∧ True)) := by
    intro h
    by_cases hl : len = 0
    · exact ⟨by omega, by omega, Or.inr ⟨hl, by omega, trivial⟩⟩
    · exact ⟨by omega, by omega, Or.inl (by omega)⟩
  by_cases c3 : tag = MAPR
  · rw [if_pos c3] at hi
    have := ReadStringReads_bounds env buf _ _ _ i hi
    exact ⟨by omega, by omega, Or.inl (by omega)⟩
  rw [if_neg c3] at hi
  by_cases c5 : tag.take 3 = PRG
  · rw [if_pos c5] at hi
    have := List.mem_range'_1.mp hi
    exact ⟨by omega, by omega, Or.inl (by omega)⟩
  rw [if_neg c5] at hi
  by_cases c6 : tag.take 3 = CHR
  · rw [if_pos c6] at hi
    have := List.mem_range'_1.mp hi
    exact ⟨by omega, by omega, Or.inl (by omega)⟩
  rw [if_neg c6] at hi
  by_cases c7 : tag = TVCI
  · rw [if_pos c7] at hi
    obtain ⟨h1, h2, h3⟩ := one (List.mem_singleton.mp hi)
    exact ⟨h1, h2, h3.imp id (fun h => ⟨h.1, h.2.1, Or.inl c7⟩)⟩
  rw [if_neg c7] at hi
  by_cases c8 : tag = CTRL
  · rw [if_pos c8] at hi; simp at hi
  rw [if_neg c8] at hi
  by_cases c9 : tag = BATR
  · rw [if_pos c9] at hi
    obtain ⟨h1, h2, h3⟩ := one (List.mem_singleton.mp hi)
    exact ⟨h1, h2, h3.imp id (fun h => ⟨h.1, h.2.1, Or.inr (Or.inl c9)⟩)⟩
  rw [if_neg c9] at hi
  by_cases c10 : tag = MIRR
  · rw [if_pos c10] at hi
    obtain ⟨h1, h2, h3⟩ := one (List.mem_singleton.mp hi)
    exact ⟨h1, h2, h3.imp id (fun h => ⟨h.1, h.2.1, Or.inr (Or.inr c10)⟩)⟩
  rw [if_neg c10] at hi; simp at hi

/-- Claim C15 fails on the code.  In the 63-byte file that ends with a `MIRR`
chunk of declared length 0, the call of `ReadChunk` at the start of that chunk
(offset 55) succeeds with the chunk end at offset 63, and its handler reads the
byte at offset 63: outside the declared payload and outside the buffer.  With
another chunk appended the same read stays inside the buffer but takes the
first byte of the next chunk. -/
theorem one_byte_handler_reads_past_chunk :
    (exHeader ++ encodeAll exEmptyMirrFile).length = 63 ∧
    (ReadChunk exEnv (exHeader ++ encodeAll exEmptyMirrFile) 55 {} Loader.fresh).1 = true ∧
    (ReadChunk exEnv (exHeader ++ encodeAll exEmptyMirrFile) 55 {} Loader.fresh).2.1 = 63 ∧
    handlerReads exEnv (exHeader ++ encodeAll exEmptyMirrFile) 55 = [63] ∧
    (ReadChunk exEnv (exHeader ++ encodeAll (exEmptyMirrFile ++ [exOddChunk])) 55 {}
        Loader.fresh).2.1 = 63 ∧
    handlerReads exEnv (exHeader ++ encodeAll (exEmptyMirrFile ++ [exOddChunk])) 55 = [63] := by
  decide

/-! ## C18 and C19: strings and lengths -/

theorem takeWhile_nonzero_spec (region : List Nat) :
    (0 ∉ region ∧ region.takeWhile (fun b => b != 0) = region) ∨
      ∃ t, region = region.takeWhile (fun b => b != 0) ++ 0 :: t := by
  induction region with
  | nil => left; simp
  | cons b region ih =>
    by_cases hb : b = 0
    · right
      exact ⟨region, by simp [List.takeWhile_cons, hb]⟩
    · have e : (b :: region).takeWhile (fun b => b != 0)
          = b :: region.takeWhile (fun b => b != 0) := by
        simp [List.takeWhile_cons, hb]
      rcases ih with ⟨h0, h⟩ | ⟨t, h⟩
      · left
        refine ⟨?_, by rw [e, h]⟩
        simp only [List.mem_cons, not_or]
        exact ⟨fun h => hb h.symm, h0⟩
      · right
        refine ⟨t, ?_⟩
        rw [e, List.cons_append, ← h]

/-- Claim C18.  For every region of bytes between the cursor and the chunk
end, `ReadString` returns a string `s` such that either the region has no zero
byte and `s` is the whole region, or the region is `s`, a zero byte, and a
remainder; `s` contains no zero byte, and `s` is empty exactly when the region
is empty or starts with a zero byte.  The cursor is left at the chunk end. -/
theorem readString_spec (env : Env) (pre region rest : List Nat) :
    ∃ s, ReadString env (pre ++ (region ++ rest)) pre.length (pre.length + region.length)
        = (s, pre.length + region.length) ∧
      ((0 ∉ region ∧ s = region) ∨ ∃ t, region = s ++ 0 :: t) ∧
      0 ∉ s ∧
      (s = [] ↔ region = [] ∨ region.head? = some 0) := by
  refine ⟨region.takeWhile (fun b => b != 0), ReadString_at env pre region rest,
    takeWhile_nonzero_spec region, ?_, ?_⟩
  · intro h
    have := List.mem_takeWhile_imp h
    simp at this
  · cases region with
    | nil => simp
    | cons b t =>
      by_cases hb : b = 0
      · simp [List.takeWhile_cons, hb]
      · simp [List.takeWhile_cons, hb]

theorem Read_u32_bytes (env : Env) (pre rest : List Nat) (b0 b1 b2 b3 : Nat) (h0 : b0 < 256)
    (h1 : b1 < 256) (h2 : b2 < 256) (h3 : b3 < 256) :
    Read_u32 env (pre ++ ([b0, b1, b2, b3] ++ rest)) pre.length
      = (b0 + 256 * b1 + 65536 * b2 + 16777216 * b3, pre.length + 4) := by
  simp only [Read_u32, byteAt_append_right, byteAt_append_right_zero]
  simp only [byteAt, List.cons_append, List.getD_cons_zero, List.getD_cons_succ]
  rw [lor4_eq b0 b1 b2 b3 h0 h1 h2 h3]

/-- Claim C19.  For every four bytes `b0`, `b1`, `b2`, `b3` at the cursor, the
32-bit read returns `b0 + 256*b1 + 65536*b2 + 16777216*b3` and the cursor
advanced by 4; and when the four bytes follow a four-character tag, this value
is the length `ReadChunk` works with: a call that returns `true` leaves the
cursor 8 plus that value after the chunk start, and the call returns `false`
when fewer bytes than that value follow the header. -/
theorem read_u32_little_endian (env : Env) (pre rest tag : List Nat) (b0 b1 b2 b3 : Nat)
    (rd : RomData) (ld : Loader) (h0 : b0 < 256) (h1 : b1 < 256) (h2 : b2 < 256)
    (h3 : b3 < 256) (htag : tag.length = 4) :
    Read_u32 env (pre ++ ([b0, b1, b2, b3] ++ rest)) pre.length
      = (b0 + 256 * b1 + 65536 * b2 + 16777216 * b3, pre.length + 4) ∧
    ((ReadChunk env (pre ++ (tag ++ ([b0, b1, b2, b3] ++ rest))) pre.length rd ld).1 = true →
      (ReadChunk env (pre ++ (tag ++ ([b0, b1, b2, b3] ++ rest))) pre.length rd ld).2.1
        = pre.length + 8 + (b0 + 256 * b1 + 65536 * b2 + 16777216 * b3)) ∧
    (rest.length < b0 + 256 * b1 + 65536 * b2 + 16777216 * b3 →
      (ReadChunk env (pre ++ (tag ++ ([b0, b1, b2, b3] ++ rest))) pre.length rd ld).1 = false) := by
  have e : pre ++ (tag ++ ([b0, b1, b2, b3] ++ rest)) = (pre ++ tag) ++ ([b0, b1, b2, b3] ++ rest) := by
    simp
  have hl : (pre ++ tag).length = pre.length + 4 := by simp [htag]
  have hv : (Read_u32 env (pre ++ (tag ++ ([b0, b1, b2, b3] ++ rest))) (pre.length + 4)).1
      = b0 + 256 * b1 + 65536 * b2 + 16777216 * b3 := by
    rw [e, ← hl, Read_u32_bytes env (pre ++ tag) rest b0 b1 b2 b3 h0 h1 h2 h3]
  refine ⟨Read_u32_bytes env pre rest b0 b1 b2 b3 h0 h1 h2 h3, ?_, ?_⟩
  · intro h
    rw [ReadChunk_true_cursor env _ _ rd ld h, hv]
  · intro h
    refine (ReadChunk_truncated env _ _ rd ld (Or.inr ?_)).1
    rw [hv]
    simp only [List.length_append, List.length_cons, List.length_nil, htag]
    omega

/-- Claim C19 on the bytes `78 56 34 92`, whose last byte is above 127, after
the tag `NAME`: the read gives 2453952120, and `ReadChunk` returns `false`
because no such payload follows. -/
theorem read_u32_little_endian_witness :
    Read_u32 exEnv (exHeader ++ ([0x78, 0x56, 0x34, 0x92] ++ [])) exHeader.length
      = (0x78 + 256 * 0x56 + 65536 * 0x34 + 16777216 * 0x92, exHeader.length + 4) ∧
    ((ReadChunk exEnv (exHeader ++ (str "NAME" ++ ([0x78, 0x56, 0x34, 0x92] ++ [])))
        exHeader.length {} Loader.fresh).1 = true →
      (ReadChunk exEnv (exHeader ++ (str "NAME" ++ ([0x78, 0x56, 0x34, 0x92] ++ [])))
        exHeader.length {} Loader.fresh).2.1
        = exHeader.length + 8 + (0x78 + 256 * 0x56 + 65536 * 0x34 + 16777216 * 0x92)) ∧
    (([] : List Nat).length < 0x78 + 256 * 0x56 + 65536 * 0x34 + 16777216 * 0x92 →
      (ReadChunk exEnv (exHeader ++ (str "NAME" ++ ([0x78, 0x56, 0x34, 0x92] ++ [])))
        exHeader.length {} Loader.fresh).1 = false) :=
  read_u32_little_endian exEnv exHeader [] (str "NAME") 0x78 0x56 0x34 0x92 {} Loader.fresh
    (by decide) (by decide) (by decide) (by decide) (by decide)

/-! ## C20: when a load succeeds -/

/-- A call of `ReadChunk` that returns `true` leaves `Error` as it was; one
that returns `false` leaves `Error` as it was or leaves an empty board name. -/
theorem ReadChunk_error (env : Env) (buf : List Nat) (data : Nat) (rd : RomData) (ld : Loader) :
    ((ReadChunk env buf data rd ld).1 = true →
      (ReadChunk env buf data rd ld).2.2.1.Error = rd.Error) ∧
    ((ReadChunk env buf data rd ld).1 = false →
      (ReadChunk env buf data rd ld).2.2.1.Error = rd.Error ∨
      (ReadChunk env buf data rd ld).2.2.2._mapperName = []) := by
  rw [ReadChunk_unfold]
  generalize (ReadFourCC env buf data).1 = tag
  generalize (Read_u32 env buf (data + 4)).1 = len
  generalize ReadString env buf (data + 4 + 4) (data + 4 + 4 + len) = rs
  generalize (Read_u8 env buf (data + 4 + 4)).1 = value
  generalize (Read_bytes buf (data + 4 + 4) len).1 = bytes
  generalize chunkNumber (tag.getD 3 0) = k
  by_cases c1 : data + 8 > buf.length
  · rw [if_pos c1]; exact ⟨fun _ => rfl, fun _ => Or.inl rfl⟩
  rw [if_neg c1]
  by_cases c2 : data + 4 + 4 + len > buf.length
  · rw [if_pos c2]; exact ⟨fun _ => rfl, fun _ => Or.inl rfl⟩
  rw [if_neg c2]
  by_cases c3 : tag = MAPR
  · rw [if_pos c3]
    by_cases c4 : rs.1.length > 0
    · rw [if_pos c4]; exact ⟨fun _ => rfl, fun _ => Or.inl rfl⟩
    · rw [if_neg c4]
      refine ⟨fun h => absurd h Bool.false_ne_true, fun _ => Or.inr ?_⟩
      exact List.length_eq_zero.mp (Nat.eq_zero_of_not_pos c4)
  rw [if_neg c3]
  by_cases c5 : tag.take 3 = PRG
  · rw [if_pos c5]; exact ⟨fun _ => rfl, fun _ => Or.inl rfl⟩
  rw [if_neg c5]
  by_cases c6 : tag.take 3 = CHR
  · rw [if_pos c6]; exact ⟨fun _ => rfl, fun _ => Or.inl rfl⟩
  rw [if_neg c6]
  by_cases c7 : tag = TVCI
  · rw [if_pos c7]; exact ⟨fun _ => rfl, fun _ => Or.inl rfl⟩
  rw [if_neg c7]
  by_cases c8 : tag = CTRL
  · rw [if_pos c8]; exact ⟨fun _ => rfl, fun _ => Or.inl rfl⟩
  rw [if_neg c8]
  by_cases c9 : tag = BATR
  · rw [if_pos c9]; exact ⟨fun _ => rfl, fun _ => Or.inl rfl⟩
  rw [if_neg c9]
  by_cases c10 : tag = MIRR
  · rw [if_pos c10]; exact ⟨fun _ => rfl, fun _ => Or.inl rfl⟩
  rw [if_neg c10]; exact ⟨fun _ => rfl, fun _ => Or.inl rfl⟩

theorem parseLoop_error (env : Env) (buf : List Nat) :
    ∀ (fuel data : Nat) (rd : RomData) (ld : Loader) (r : Nat × RomData × Loader),
      rd.Error = false → parseLoop env buf fuel data rd ld = some r →
      r.2.1.Error = false ∨ r.2.2._mapperName = [] := by
  intro fuel
  induction fuel with
  | zero => intro data rd ld r _ h; simp [parseLoop] at h
  | succ fuel ih =>
    intro data rd ld r hE h
    rw [parseLoop_succ] at h
    obtain ⟨ht, hf⟩ := ReadChunk_error env buf data rd ld
    by_cases hok : (ReadChunk env buf data rd ld).1 = true
    · rw [if_pos hok] at h
      exact ih _ _ _ r ((ht hok).trans hE) h
    · rw [if_neg hok] at h
      cases h
      rcases hf (by simpa using hok) with h1 | h1
      · left; exact h1.trans hE
      · right; exact h1

/-- Claim C20.  For every buffer, with a game-database step that leaves the
descriptor unchanged, the parse loop of `LoadRom` on a fresh loader ends and
the descriptor returned has `Error = false` if and only if the assembled
`PrgRom` is non-empty, the board name the loop has left is non-empty and
`GetMapperID` does not resolve it to `UnknownBoard`; a descriptor returned
without error therefore has program data and a `MapperID` other than
`UnknownBoard`. -/
theorem loadRom_error_iff (env : Env) (buf : List Nat) (hdb : DbInert env) :
    (∃ p, parseRom env Loader.fresh buf = some p) ∧
    ∀ d rd ld1, parseRom env Loader.fresh buf = some (d, rd, ld1) →
      ∃ r, LoadRom env Loader.fresh buf = some (r, ld1) ∧
        r.PrgRom = assemble ld1._prgChunks [] ∧
        (r.Error = false ↔
          (r.PrgRom ≠ [] ∧ ld1._mapperName ≠ [] ∧
            GetMapperID env ld1._mapperName ≠ env.UnknownBoard)) ∧
        (r.Error = false → r.PrgRom ≠ [] ∧ r.MapperID ≠ env.UnknownBoard) := by
  refine ⟨parseRom_total env Loader.fresh buf, ?_⟩
  intro d rd ld1 hparse
  obtain ⟨h1, _, _, _, _, h6⟩ := parseRom_loopInv env buf _ hparse
  have hE := parseLoop_error env buf _ _ _ _ _ rfl hparse
  simp only at h1 h6 hE
  refine ⟨finishLoad env rd ld1, by simp only [LoadRom, hparse], ?_⟩
  by_cases hc : rd.PrgRom ++ concatSlots ld1._prgChunks = [] ∨ ld1._mapperName = []
  · rw [finishLoad_error env rd ld1 hc]
    rw [h1, List.nil_append] at hc
    simp only [assemble_eq, h1, List.nil_append]
    refine ⟨trivial, ⟨fun h => absurd h (by simp), fun h => ?_⟩, fun h => absurd h (by simp)⟩
    rcases hc with hc | hc
    · exact absurd hc h.1
    · exact absurd hc h.2.1
  · have hprg : rd.PrgRom ++ concatSlots ld1._prgChunks ≠ [] := fun h => hc (Or.inl h)
    have hname : ld1._mapperName ≠ [] := fun h => hc (Or.inr h)
    have hErr : rd.Error = false := hE.resolve_right hname
    rw [finishLoad_ok env rd ld1 hdb hprg hname]
    rw [h1, List.nil_append] at hprg
    simp only [assemble_eq, h1, List.nil_append, hErr, Bool.false_or, h6 hname,
      decide_eq_false_iff_not]
    exact ⟨trivial, ⟨fun h => ⟨hprg, hname, h⟩, fun h => h.2.2⟩, fun h => ⟨hprg, h⟩⟩

/-- Claim C20 on the file naming the board `NROM` with `AA BB` in `PRG0`: the
load has no error, and the three conditions hold. -/
theorem loadRom_error_iff_witness :
    ∃ r, LoadRom exEnv Loader.fresh (exHeader ++ encodeAll exGoodFile)
        = some (r, Write.apply (Write.prg 0 [0xAA, 0xBB])
            { Loader.fresh with _mapperName := str "NROM" }) ∧
      r.PrgRom = assemble (Write.apply (Write.prg 0 [0xAA, 0xBB])
            { Loader.fresh with _mapperName := str "NROM" })._prgChunks [] ∧
      (r.Error = false ↔
        (r.PrgRom ≠ [] ∧ str "NROM" ≠ [] ∧
          GetMapperID exEnv (str "NROM") ≠ exEnv.UnknownBoard)) ∧
      (r.Error = false → r.PrgRom ≠ [] ∧ r.MapperID ≠ exEnv.UnknownBoard) :=
  (loadRom_error_iff exEnv (exHeader ++ encodeAll exGoodFile) (fun _ _ _ => rfl)).2 55
    { MapperID := 0 }
    (Write.apply (Write.prg 0 [0xAA, 0xBB]) { Loader.fresh with _mapperName := str "NROM" }) rfl

/-! ## C14, amended: what a second load keeps of the first -/

end UnifLoader
